import Mathlib

attribute [local semireducible] Rat.mul Rat.add Rat.sub Rat.inv

set_option maxRecDepth 4000

/-!
Shallow embedding of `src/components/classes/world-chunk.ts` (class `WorldChunk`)
and verification of its specification.

The cell grid `data[x][y][z]` is modelled as a total function
`Int → Int → Int → Option Cell`; a coordinate holds `none` when no cell is
stored there (out-of-range coordinates, or the pre-`generate` state).  Each
`THREE.InstancedMesh` is modelled as a `Batch`: its active instance `count`
plus the translation recorded by `setMatrixAt` at every slot.  JavaScript
floats in the noise pipeline are modelled as rationals.

External collaborators that are not under `src/` are modelled from the spec:
the block registry (`lib/blocks`), the Edit Store (`DataStore`), and the
noise sources (`RNG` / `SimplexNoise`), the latter as pure functions of the
seed and the sampled coordinates.
-/

namespace MC

/-- One voxel cell of the chunk grid: the block-type id and the optional
render-instance slot (entries of `this.data` in `world-chunk.ts`). -/
structure Cell where
  id : Nat
  instanceId : Option Nat
deriving DecidableEq, Repr

/-- One instanced render batch (a `THREE.InstancedMesh`): the active
instance count and the translation stored at each slot by `setMatrixAt`. -/
structure Batch where
  count : Nat
  mats : Nat → Int × Int × Int

/-- Chunk dimensions (`size.width`, `size.height`); X and Z share `width`. -/
structure Size where
  width : Nat
  height : Nat
deriving DecidableEq

/-- Terrain shape parameters (`params.terrain`). -/
structure TerrainParams where
  scale : ℚ
  magnitude : ℚ
  offset : ℚ
deriving DecidableEq

/-- Generation parameters (`params`). -/
structure Params where
  seed : ℚ
  terrain : TerrainParams
deriving DecidableEq

/-- Modelled from the spec: the Edit Store (`DataStore`, not under `src/`),
a key-value store keyed by chunk origin and local coordinate. -/
def Store := ℚ → ℚ → Int → Int → Int → Option Nat

/-- Modelled from the spec: `DataStore.contains`. -/
def Store.contains (s : Store) (ox oz : ℚ) (x y z : Int) : Bool :=
  (s ox oz x y z).isSome

/-- Modelled from the spec: `DataStore.get` (only queried after `contains`). -/
def Store.get (s : Store) (ox oz : ℚ) (x y z : Int) : Nat :=
  (s ox oz x y z).getD 0

/-- Modelled from the spec: `DataStore.set`. -/
def Store.set (s : Store) (ox oz : ℚ) (x y z : Int) (id : Nat) : Store :=
  fun a b u v w => if (a, b, u, v, w) = (ox, oz, x, y, z) then some id else s a b u v w

/-- The store holding no player edits at all. -/
def emptyStore : Store := fun _ _ _ _ _ => none

/-- Modelled from the spec: a block-registry entry (`lib/blocks`, not under
`src/`); only the id is relevant to the chunk core. -/
structure BlockType where
  id : Nat
deriving DecidableEq

namespace blocks

/-- Modelled from the spec: the reserved empty sentinel id. -/
def empty : BlockType := ⟨0⟩

/-- Modelled from the spec: the grass block type. -/
def grass : BlockType := ⟨1⟩

/-- Modelled from the spec: the dirt block type. -/
def dirt : BlockType := ⟨2⟩

/-- Modelled from the spec: the stone block type. -/
def stone : BlockType := ⟨3⟩

end blocks

/-- Modelled from the spec: a resource registry entry with per-axis noise
scale and scarcity threshold (`lib/blocks`, not under `src/`). -/
structure Resource where
  id : Nat
  scaleX : ℚ
  scaleY : ℚ
  scaleZ : ℚ
  scarcity : ℚ

/-- Modelled from the spec: the external collaborators consumed during
generation.  `res3` is the 3D gradient noise of the resource pass and
`terr2` the 2D gradient noise of the terrain pass; both take the seed first
and are thereby pure and deterministic for identical seed and coordinates
(the two `SimplexNoise` instances are distinct but both derived from
`RNG(seed)`).  `resources` is the registry's resource list. -/
structure Config where
  res3 : ℚ → ℚ → ℚ → ℚ → ℚ
  terr2 : ℚ → ℚ → ℚ → ℚ
  resources : List Resource

/-- The chunk state (class `WorldChunk`): size, generation parameters, the
world-space position of the chunk (`this.position`, the origin), the cell
grid, the render batches, the Edit Store reference, and the loaded flag. -/
structure Chunk where
  size : Size
  params : Params
  posX : ℚ
  posY : ℚ
  posZ : ℚ
  data : Int → Int → Int → Option Cell
  batches : Nat → Batch
  dataStore : Store
  loaded : Bool

/-- Source `inBounds`: the coordinate test of every cell access. -/
def inBounds (c : Chunk) (x y z : Int) : Bool :=
  decide (0 ≤ x) && decide (x < (c.size.width : Int)) &&
  decide (0 ≤ y) && decide (y < (c.size.height : Int)) &&
  decide (0 ≤ z) && decide (z < (c.size.width : Int))

/-- Source `getBlock`: the cell at `(x, y, z)`, or `none` out of bounds. -/
def getBlock (c : Chunk) (x y z : Int) : Option Cell :=
  if inBounds c x y z then c.data x y z else none

/-- Mutation of the one cell stored at `(x, y, z)` (the effect of writing a
field of `this.data[x][y][z]`); absent cells stay absent. -/
def updCell (dat : Int → Int → Int → Option Cell) (x y z : Int) (f : Cell → Cell) :
    Int → Int → Int → Option Cell :=
  fun a b d => if (a, b, d) = (x, y, z) then (dat a b d).map f else dat a b d

/-- Source `setBlockId`: overwrite the id of the cell at `(x, y, z)` after a
bounds check; out-of-range writes are discarded. -/
def setBlockId (c : Chunk) (x y z : Int) (id : Nat) : Chunk :=
  if inBounds c x y z then
    { c with data := updCell c.data x y z fun cell => { cell with id := id } }
  else c

/-- Source `setBlockInstanceId`: overwrite the instance slot of the cell at
`(x, y, z)` after a bounds check. -/
def setBlockInstanceId (c : Chunk) (x y z : Int) (instanceId : Option Nat) : Chunk :=
  if inBounds c x y z then
    { c with data := updCell c.data x y z fun cell => { cell with instanceId := instanceId } }
  else c

/-- The id a neighbor lookup yields: `this.getBlock(...)?.id ?? blocks.empty.id`. -/
def blockIdOr (o : Option Cell) : Nat :=
  (o.map Cell.id).getD blocks.empty.id

/-- Source `isBlockObscured`: true when none of the six axis-aligned
neighbors reads as empty (out-of-bounds neighbors read as empty). -/
def isBlockObscured (c : Chunk) (x y z : Int) : Bool :=
  let up := blockIdOr (getBlock c x (y + 1) z)
  let down := blockIdOr (getBlock c x (y - 1) z)
  let left := blockIdOr (getBlock c (x + 1) y z)
  let right := blockIdOr (getBlock c (x - 1) y z)
  let forward := blockIdOr (getBlock c x y (z + 1))
  let back := blockIdOr (getBlock c x y (z - 1))
  if up = blocks.empty.id ∨ down = blocks.empty.id ∨ left = blocks.empty.id ∨
      right = blocks.empty.id ∨ forward = blocks.empty.id ∨ back = blocks.empty.id then
    false
  else
    true

/-- The integers `0, 1, ..., n-1`, the values of a `for` loop counter. -/
def irange (n : Nat) : List Int :=
  List.map (fun (i : Nat) => (i : Int)) (List.range n)

/-- The coordinates visited by the nested `x`/`y`/`z` loops, in source scan
order (`x` outer, `y` middle, `z` inner). -/
def scanList (s : Size) : List (Int × Int × Int) :=
  (irange s.width).flatMap fun x =>
    (irange s.height).flatMap fun y =>
      (irange s.width).map fun z => (x, y, z)

/-- The `(x, z)` columns visited by `generateTerrain`, in source order. -/
def colList (s : Size) : List (Int × Int) :=
  (irange s.width).flatMap fun x =>
    (irange s.width).map fun z => (x, z)

/-- Source `initializeTerrain`: a fresh dense grid of empty cells with no
instance assignments. -/
def initializeTerrain (c : Chunk) : Chunk :=
  { c with data := fun x y z =>
      if inBounds c x y z then some ⟨blocks.empty.id, none⟩ else none }

/-- One cell of one resource pass of `generateResources`: stamp the
resource id where its 3D noise exceeds the scarcity threshold. -/
def resourceStep (cfg : Config) (r : Resource) (c : Chunk) (p : Int × Int × Int) : Chunk :=
  let value := cfg.res3 c.params.seed ((c.posX + p.1) / r.scaleX)
    ((c.posY + p.2.1) / r.scaleY) ((c.posZ + p.2.2) / r.scaleZ)
  if r.scarcity < value then setBlockId c p.1 p.2.1 p.2.2 r.id else c

/-- Source `generateResources`: every resource in registry order, each
sweeping the full grid. -/
def generateResources (cfg : Config) (c : Chunk) : Chunk :=
  cfg.resources.foldl (fun c r => (scanList c.size).foldl (resourceStep cfg r) c) c

/-- The terrain height of a column: scaled 2D noise, floored and clamped to
`[0, height - 1]`. -/
def terrainHeight (cfg : Config) (c : Chunk) (x z : Int) : Int :=
  let value := cfg.terr2 c.params.seed ((c.posX + x) / c.params.terrain.scale)
    ((c.posZ + z) / c.params.terrain.scale)
  let scaledNoise := c.params.terrain.offset + c.params.terrain.magnitude * value
  let height := Rat.floor ((c.size.height : ℚ) * scaledNoise)
  max 0 (min height ((c.size.height : Int) - 1))

/-- One `y` iteration of the terrain column fill of `generateTerrain`. -/
def terrainCellStep (c : Chunk) (height x z y : Int) : Chunk :=
  if y < height ∧ (getBlock c x y z).map Cell.id = some blocks.empty.id then
    setBlockId c x y z blocks.dirt.id
  else if y = height then
    setBlockId c x y z blocks.grass.id
  else if height < y then
    setBlockId c x y z blocks.empty.id
  else c

/-- One `(x, z)` column of `generateTerrain`: compute the height once, then
fill `y = 0, ..., height` inclusive (the loop bound is `y <= size.height`). -/
def terrainColumn (cfg : Config) (c : Chunk) (x z : Int) : Chunk :=
  let height := terrainHeight cfg c x z
  (irange (c.size.height + 1)).foldl (fun c y => terrainCellStep c height x z y) c

/-- Source `generateTerrain`: all columns in scan order. -/
def generateTerrain (cfg : Config) (c : Chunk) : Chunk :=
  (colList c.size).foldl (fun c q => terrainColumn cfg c q.1 q.2) c

/-- One cell of `loadPlayerChanges`: overwrite the id with the stored player
edit when the Edit Store has an entry for this chunk and coordinate. -/
def loadStep (c : Chunk) (p : Int × Int × Int) : Chunk :=
  if c.dataStore.contains c.posX c.posZ p.1 p.2.1 p.2.2 then
    setBlockId c p.1 p.2.1 p.2.2 (c.dataStore.get c.posX c.posZ p.1 p.2.1 p.2.2)
  else c

/-- Source `loadPlayerChanges`: apply the Edit Store over the full grid. -/
def loadPlayerChanges (c : Chunk) : Chunk :=
  (scanList c.size).foldl loadStep c

/-- The batch reset at the top of `generateMeshes`: every mesh is created
fresh with `count = 0` (the previous children are discarded by `clear`). -/
def clearBatches (c : Chunk) : Chunk :=
  { c with batches := fun _ => ⟨0, fun _ => (0, 0, 0)⟩ }

/-- One cell of the `generateMeshes` scan: skip empty cells, leave obscured
cells without an instance, otherwise append an instance at the end of the
cell's batch and record the cell's local position at that slot. -/
def meshStep (c : Chunk) (p : Int × Int × Int) : Chunk :=
  match getBlock c p.1 p.2.1 p.2.2 with
  | none => c
  | some cell =>
    if cell.id = blocks.empty.id then c
    else
      let b := c.batches cell.id
      if isBlockObscured c p.1 p.2.1 p.2.2 then c
      else
        let newBatches : Nat → Batch := fun i =>
          if i = cell.id then ⟨b.count + 1, fun k => if k = b.count then p else b.mats k⟩
          else c.batches i
        setBlockInstanceId { c with batches := newBatches } p.1 p.2.1 p.2.2 (some b.count)

/-- Source `generateMeshes`: reset all batches, then scan the grid. -/
def generateMeshes (c : Chunk) : Chunk :=
  (scanList (clearBatches c).size).foldl meshStep (clearBatches c)

/-- Source `generate`: the five pipeline steps in strict order, then mark
the chunk loaded. -/
def generate (cfg : Config) (c : Chunk) : Chunk :=
  { generateMeshes (loadPlayerChanges (generateTerrain cfg
      (generateResources cfg (initializeTerrain c)))) with loaded := true }

/-- Source `addBlockInstance`: create a render instance for the cell when it
exists, is non-empty, and has no instance yet; the instance is appended at
the end of the cell's batch with the cell's local position as transform. -/
def addBlockInstance (c : Chunk) (x y z : Int) : Chunk :=
  match getBlock c x y z with
  | none => c
  | some block =>
    if block.id ≠ blocks.empty.id ∧ block.instanceId = none then
      let b := c.batches block.id
      let instanceId := b.count
      let newBatches : Nat → Batch := fun i =>
        if i = block.id then ⟨b.count + 1, fun k => if k = instanceId then (x, y, z) else b.mats k⟩
        else c.batches i
      setBlockInstanceId { c with batches := newBatches } x y z (some instanceId)
    else c

/-- Source `addBlock`: when the cell exists and is empty, set its id, create
its render instance, and record the edit in the Edit Store. -/
def addBlock (c : Chunk) (x y z : Int) (blockId : Nat) : Chunk :=
  match getBlock c x y z with
  | none => c
  | some block =>
    if block.id = blocks.empty.id then
      let c2 := addBlockInstance (setBlockId c x y z blockId) x y z
      { c2 with dataStore := c2.dataStore.set c2.posX c2.posZ x y z blockId }
    else c

/-- Source `deleteBlockInstance`: swap-with-last removal of the cell's
render instance.  The transform of the last active slot is read back, the
cell recorded there is re-pointed at the removed slot, the transform is
copied into the removed slot, the count shrinks by one, and the removed
cell's instance is cleared.  (On a `none` cell the source would fault in the
mesh lookup; that path is unreachable from `removeBlock`, which guards it.) -/
def deleteBlockInstance (c : Chunk) (x y z : Int) : Chunk :=
  match getBlock c x y z with
  | none => c
  | some block =>
    match block.instanceId with
    | none => c
    | some instanceId =>
      let b := c.batches block.id
      let last := b.mats (b.count - 1)
      let c1 := setBlockInstanceId c last.1 last.2.1 last.2.2 (some instanceId)
      let newBatches : Nat → Batch := fun i =>
        if i = block.id then ⟨b.count - 1, fun k => if k = instanceId then last else b.mats k⟩
        else c1.batches i
      setBlockInstanceId { c1 with batches := newBatches } x y z none

/-- Source `removeBlock`: when the cell exists and is non-empty, delete its
render instance, clear its id to empty, and record the deletion in the
Edit Store. -/
def removeBlock (c : Chunk) (x y z : Int) : Chunk :=
  match getBlock c x y z with
  | none => c
  | some block =>
    if block.id ≠ blocks.empty.id then
      let c2 := setBlockId (deleteBlockInstance c x y z) x y z blocks.empty.id
      { c2 with dataStore := c2.dataStore.set c2.posX c2.posZ x y z blocks.empty.id }
    else c

/-- An incremental edit applied after generation. -/
inductive EditOp
  | add (x y z : Int) (blockId : Nat)
  | remove (x y z : Int)

/-- Apply one incremental edit. -/
def applyEdit (c : Chunk) : EditOp → Chunk
  | .add x y z blockId => addBlock c x y z blockId
  | .remove x y z => removeBlock c x y z

/-- Apply a sequence of incremental edits in order. -/
def applyEdits (c : Chunk) (l : List EditOp) : Chunk :=
  l.foldl applyEdit c

/-- Tupled cell lookup, for quantifying over coordinates. -/
def getB (c : Chunk) (p : Int × Int × Int) : Option Cell :=
  getBlock c p.1 p.2.1 p.2.2

/-- Tupled bounds test. -/
def InB (c : Chunk) (p : Int × Int × Int) : Prop :=
  inBounds c p.1 p.2.1 p.2.2 = true

instance (c : Chunk) (p : Int × Int × Int) : Decidable (InB c p) := by
  unfold InB
  infer_instance

/-- The fields of the chunk that the generation pipeline reads but never
writes: size, parameters, position, and the Edit Store.  `generate` keeps
them fixed, and its output is a function of them alone. -/
def SameStatic (c₀ c : Chunk) : Prop :=
  c.size = c₀.size ∧ c.params = c₀.params ∧ c.posX = c₀.posX ∧ c.posY = c₀.posY ∧
  c.posZ = c₀.posZ ∧ c.dataStore = c₀.dataStore

/-- The noise condition under which one resource is stamped at a cell. -/
def resCond (cfg : Config) (r : Resource) (c : Chunk) (p : Int × Int × Int) : Prop :=
  r.scarcity < cfg.res3 c.params.seed ((c.posX + p.1) / r.scaleX)
    ((c.posY + p.2.1) / r.scaleY) ((c.posZ + p.2.2) / r.scaleZ)

instance (cfg : Config) (r : Resource) (c : Chunk) (p : Int × Int × Int) :
    Decidable (resCond cfg r c p) := by
  unfold resCond; infer_instance

/-- The block id a cell holds after the resource passes of a list of
resources, starting from id `a`: each pass overwrites it when its noise
condition holds; the last qualifying resource wins. -/
def resUpdId (cfg : Config) (rs : List Resource) (c : Chunk) (p : Int × Int × Int) (a : Nat) : Nat :=
  rs.foldl (fun a r => if resCond cfg r c p then r.id else a) a

/-- The block id the resource pass leaves at a cell of an initially empty
grid. -/
def resourceIdAt (cfg : Config) (c : Chunk) (p : Int × Int × Int) : Nat :=
  resUpdId cfg cfg.resources c p blocks.empty.id

/-- The cell transformation of one `y` iteration of the terrain column
fill, as a pure function of the column height and the current cell. -/
def terrUpd (h y : Int) (cell : Cell) : Cell :=
  if y < h ∧ cell.id = blocks.empty.id then { cell with id := blocks.dirt.id }
  else if y = h then { cell with id := blocks.grass.id }
  else if h < y then { cell with id := blocks.empty.id }
  else cell

/-- The cell transformation of the Edit Store overlay at one coordinate. -/
def loadUpd (c₀ : Chunk) (p : Int × Int × Int) (cell : Cell) : Cell :=
  if c₀.dataStore.contains c₀.posX c₀.posZ p.1 p.2.1 p.2.2 then
    { cell with id := c₀.dataStore.get c₀.posX c₀.posZ p.1 p.2.1 p.2.2 }
  else cell

/-- The block id the full generation pipeline computes for an in-bounds
coordinate before the Edit Store overlay: resources first, then the
terrain carve with the column height. -/
def generatedIdAt (cfg : Config) (c : Chunk) (p : Int × Int × Int) : Nat :=
  (terrUpd (terrainHeight cfg c p.1 p.2.2) p.2.1 ⟨resourceIdAt cfg c p, none⟩).id

/-- The block id the full generation pipeline computes for an in-bounds
coordinate, Edit Store overlay included. -/
def overlaidIdAt (cfg : Config) (c : Chunk) (p : Int × Int × Int) : Nat :=
  if c.dataStore.contains c.posX c.posZ p.1 p.2.1 p.2.2 then
    c.dataStore.get c.posX c.posZ p.1 p.2.1 p.2.2
  else generatedIdAt cfg c p

/-- No cell is ever stored at an out-of-range coordinate. -/
def NoStray (c : Chunk) : Prop :=
  ∀ p : Int × Int × Int, ¬ InB c p → c.data p.1 p.2.1 p.2.2 = none

/-- The render bookkeeping invariant of a chunk.

`emptyNone`: an empty cell owns no render instance.  `slot`: a cell owning
slot `k` of its batch has `k < count` and the batch transform at `k` is the
cell's own position.  `dense`: every slot below `count` of a non-empty
batch is owned by the cell stored at that slot's recorded position. -/
structure Inv (c : Chunk) : Prop where
  emptyNone : ∀ p cell, getB c p = some cell → cell.id = blocks.empty.id → cell.instanceId = none
  slot : ∀ p cell k, getB c p = some cell → cell.instanceId = some k →
    k < (c.batches cell.id).count ∧ (c.batches cell.id).mats k = p
  dense : ∀ i k, i ≠ blocks.empty.id → k < (c.batches i).count →
    ∃ cell, getB c ((c.batches i).mats k) = some cell ∧ cell.id = i ∧ cell.instanceId = some k

/-- The in-bounds coordinates of a chunk, as a finite set. -/
def coordFinset (c : Chunk) : Finset (Int × Int × Int) :=
  ((Finset.range c.size.width).image fun (i : Nat) => (i : Int)) ×ˢ
    (((Finset.range c.size.height).image fun (i : Nat) => (i : Int)) ×ˢ
      ((Finset.range c.size.width).image fun (i : Nat) => (i : Int)))

/-- The cells of block type `i` that currently own a render instance. -/
def visCells (c : Chunk) (i : Nat) : Finset (Int × Int × Int) :=
  (coordFinset c).filter fun p =>
    ((getB c p).any fun cell => cell.id == i && cell.instanceId.isSome) = true

/-- The six axis-aligned neighbor coordinates consulted by the occlusion
test, in source order: up, down, left, right, forward, back. -/
def neighbors (p : Int × Int × Int) : List (Int × Int × Int) :=
  [(p.1, p.2.1 + 1, p.2.2), (p.1, p.2.1 - 1, p.2.2), (p.1 + 1, p.2.1, p.2.2),
   (p.1 - 1, p.2.1, p.2.2), (p.1, p.2.1, p.2.2 + 1), (p.1, p.2.1, p.2.2 - 1)]

/-- Two chunk states agreeing on every generation input and on the cell
grid; the render batches and the loaded flag may differ.  The data passes
of the pipeline preserve this relation. -/
def PreEq (c c' : Chunk) : Prop :=
  c.size = c'.size ∧ c.params = c'.params ∧ c.posX = c'.posX ∧ c.posY = c'.posY ∧
  c.posZ = c'.posZ ∧ c.dataStore = c'.dataStore ∧ c.data = c'.data

/-- Two chunk states agreeing on everything except the loaded flag.  The
mesh pass preserves this relation. -/
def AllEq (c c' : Chunk) : Prop :=
  PreEq c c' ∧ c.batches = c'.batches

/-! ### Concrete instances used by the witnesses and counterexamples -/

/-- A fully concrete configuration: constant-zero noise, no resources. -/
def cfg0 : Config := ⟨fun _ _ _ _ => 0, fun _ _ _ => 0, []⟩

/-- A concrete chunk as constructed by the manager: 2-wide, 2-high, offset
1/2, so every column has height 1 (the concrete scenario of the spec). -/
def chA : Chunk :=
  { size := ⟨2, 2⟩, params := ⟨0, ⟨1, 0, 1/2⟩⟩, posX := 0, posY := 0, posZ := 0,
    data := fun _ _ _ => none, batches := fun _ => ⟨0, fun _ => (0, 0, 0)⟩,
    dataStore := emptyStore, loaded := false }

/-- A concrete chunk 3-wide and 4-high with column height 1, leaving the
two top layers empty. -/
def chB : Chunk :=
  { size := ⟨3, 4⟩, params := ⟨0, ⟨1, 0, 1/4⟩⟩, posX := 0, posY := 0, posZ := 0,
    data := fun _ _ _ => none, batches := fun _ => ⟨0, fun _ => (0, 0, 0)⟩,
    dataStore := emptyStore, loaded := false }

/-- A concrete chunk 3-wide and 3-high with column height 2: the cell at
`(1, 1, 1)` is interior and fully obscured. -/
def chC : Chunk :=
  { size := ⟨3, 3⟩, params := ⟨0, ⟨1, 0, 1⟩⟩, posX := 0, posY := 0, posZ := 0,
    data := fun _ _ _ => none, batches := fun _ => ⟨0, fun _ => (0, 0, 0)⟩,
    dataStore := emptyStore, loaded := false }

/-- A concrete single-cell chunk whose lone cell is grass at slot 0. -/
def chD : Chunk :=
  { size := ⟨1, 1⟩, params := ⟨0, ⟨1, 0, 0⟩⟩, posX := 0, posY := 0, posZ := 0,
    data := fun _ _ _ => none, batches := fun _ => ⟨0, fun _ => (0, 0, 0)⟩,
    dataStore := emptyStore, loaded := false }

/-- Like `chB` but with arbitrary junk in the grid, the batches, and the
loaded flag, as a second independent pre-`generate` state. -/
def chB' : Chunk :=
  { size := ⟨3, 4⟩, params := ⟨0, ⟨1, 0, 1/4⟩⟩, posX := 0, posY := 0, posZ := 0,
    data := fun _ _ _ => some ⟨7, some 5⟩, batches := fun _ => ⟨9, fun _ => (1, 2, 3)⟩,
    dataStore := emptyStore, loaded := true }

/-- A store holding one player edit: stone at local `(1, 2, 1)` of the
chunk with origin `(0, 0)`. -/
def storeG : Store :=
  fun a b u v w => if (a, b, u, v, w) = ((0 : ℚ), (0 : ℚ), (1 : Int), (2 : Int), (1 : Int)) then
    some blocks.stone.id else none

/-- Like `chB` but backed by `storeG`. -/
def chG : Chunk :=
  { size := ⟨3, 4⟩, params := ⟨0, ⟨1, 0, 1/4⟩⟩, posX := 0, posY := 0, posZ := 0,
    data := fun _ _ _ => none, batches := fun _ => ⟨0, fun _ => (0, 0, 0)⟩,
    dataStore := storeG, loaded := false }

/-! ### Basic lemmas about accessors and setters -/

theorem inBounds_iff {c : Chunk} {x y z : Int} :
    inBounds c x y z = true ↔
      0 ≤ x ∧ x < (c.size.width : Int) ∧ 0 ≤ y ∧ y < (c.size.height : Int) ∧
      0 ≤ z ∧ z < (c.size.width : Int) := by
  simp [inBounds, and_assoc]

theorem inBounds_congr {c c' : Chunk} (h : c'.size = c.size) : inBounds c' = inBounds c := by
  funext x y z
  simp [inBounds, h]

@[simp]
theorem inBounds_update_data (c : Chunk) (dat : Int → Int → Int → Option Cell) :
    inBounds { c with data := dat } = inBounds c := rfl

@[simp]
theorem inBounds_update_batches (c : Chunk) (ba : Nat → Batch) :
    inBounds { c with batches := ba } = inBounds c := rfl

@[simp]
theorem getBlock_update_batches (c : Chunk) (ba : Nat → Batch) (x y z : Int) :
    getBlock { c with batches := ba } x y z = getBlock c x y z := rfl

@[simp]
theorem updCell_self (dat : Int → Int → Int → Option Cell) (x y z : Int) (f : Cell → Cell) :
    updCell dat x y z f x y z = (dat x y z).map f := by
  simp [updCell]

theorem updCell_other (dat : Int → Int → Int → Option Cell) (x y z : Int) (f : Cell → Cell)
    {a b d : Int} (h : (a, b, d) ≠ (x, y, z)) : updCell dat x y z f a b d = dat a b d := by
  simp [updCell, h]

@[simp]
theorem setBlockId_size (c : Chunk) (x y z : Int) (i : Nat) :
    (setBlockId c x y z i).size = c.size := by
  unfold setBlockId; split <;> rfl

@[simp]
theorem setBlockId_params (c : Chunk) (x y z : Int) (i : Nat) :
    (setBlockId c x y z i).params = c.params := by
  unfold setBlockId; split <;> rfl

@[simp]
theorem setBlockId_posX (c : Chunk) (x y z : Int) (i : Nat) :
    (setBlockId c x y z i).posX = c.posX := by
  unfold setBlockId; split <;> rfl

@[simp]
theorem setBlockId_posY (c : Chunk) (x y z : Int) (i : Nat) :
    (setBlockId c x y z i).posY = c.posY := by
  unfold setBlockId; split <;> rfl

@[simp]
theorem setBlockId_posZ (c : Chunk) (x y z : Int) (i : Nat) :
    (setBlockId c x y z i).posZ = c.posZ := by
  unfold setBlockId; split <;> rfl

@[simp]
theorem setBlockId_batches (c : Chunk) (x y z : Int) (i : Nat) :
    (setBlockId c x y z i).batches = c.batches := by
  unfold setBlockId; split <;> rfl

@[simp]
theorem setBlockId_dataStore (c : Chunk) (x y z : Int) (i : Nat) :
    (setBlockId c x y z i).dataStore = c.dataStore := by
  unfold setBlockId; split <;> rfl

@[simp]
theorem setBlockInstanceId_size (c : Chunk) (x y z : Int) (v : Option Nat) :
    (setBlockInstanceId c x y z v).size = c.size := by
  unfold setBlockInstanceId; split <;> rfl

@[simp]
theorem setBlockInstanceId_params (c : Chunk) (x y z : Int) (v : Option Nat) :
    (setBlockInstanceId c x y z v).params = c.params := by
  unfold setBlockInstanceId; split <;> rfl

@[simp]
theorem setBlockInstanceId_posX (c : Chunk) (x y z : Int) (v : Option Nat) :
    (setBlockInstanceId c x y z v).posX = c.posX := by
  unfold setBlockInstanceId; split <;> rfl

@[simp]
theorem setBlockInstanceId_posY (c : Chunk) (x y z : Int) (v : Option Nat) :
    (setBlockInstanceId c x y z v).posY = c.posY := by
  unfold setBlockInstanceId; split <;> rfl

@[simp]
theorem setBlockInstanceId_posZ (c : Chunk) (x y z : Int) (v : Option Nat) :
    (setBlockInstanceId c x y z v).posZ = c.posZ := by
  unfold setBlockInstanceId; split <;> rfl

@[simp]
theorem setBlockInstanceId_batches (c : Chunk) (x y z : Int) (v : Option Nat) :
    (setBlockInstanceId c x y z v).batches = c.batches := by
  unfold setBlockInstanceId; split <;> rfl

@[simp]
theorem setBlockInstanceId_dataStore (c : Chunk) (x y z : Int) (v : Option Nat) :
    (setBlockInstanceId c x y z v).dataStore = c.dataStore := by
  unfold setBlockInstanceId; split <;> rfl

theorem getBlock_of_not_inBounds {c : Chunk} {x y z : Int} (h : ¬ inBounds c x y z) :
    getBlock c x y z = none := by
  simp [getBlock, h]

theorem getBlock_setBlockId (c : Chunk) (x y z : Int) (i : Nat) (a b d : Int) :
    getBlock (setBlockId c x y z i) a b d =
      if (a, b, d) = (x, y, z) then (getBlock c a b d).map fun cell => { cell with id := i }
      else getBlock c a b d := by
  by_cases hb : inBounds c x y z
  · by_cases hq : (a, b, d) = (x, y, z)
    · obtain ⟨rfl, rfl, rfl⟩ : a = x ∧ b = y ∧ d = z := by simpa [Prod.ext_iff] using hq
      simp [setBlockId, getBlock, hb]
    · simp [setBlockId, getBlock, hb, hq, updCell_other _ _ _ _ _ hq]
  · by_cases hq : (a, b, d) = (x, y, z)
    · obtain ⟨rfl, rfl, rfl⟩ : a = x ∧ b = y ∧ d = z := by simpa [Prod.ext_iff] using hq
      simp [setBlockId, getBlock, hb]
    · simp [setBlockId, hb, hq]

theorem getBlock_setBlockInstanceId (c : Chunk) (x y z : Int) (v : Option Nat) (a b d : Int) :
    getBlock (setBlockInstanceId c x y z v) a b d =
      if (a, b, d) = (x, y, z) then (getBlock c a b d).map fun cell => { cell with instanceId := v }
      else getBlock c a b d := by
  by_cases hb : inBounds c x y z
  · by_cases hq : (a, b, d) = (x, y, z)
    · obtain ⟨rfl, rfl, rfl⟩ : a = x ∧ b = y ∧ d = z := by simpa [Prod.ext_iff] using hq
      simp [setBlockInstanceId, getBlock, hb]
    · simp [setBlockInstanceId, getBlock, hb, hq, updCell_other _ _ _ _ _ hq]
  · by_cases hq : (a, b, d) = (x, y, z)
    · obtain ⟨rfl, rfl, rfl⟩ : a = x ∧ b = y ∧ d = z := by simpa [Prod.ext_iff] using hq
      simp [setBlockInstanceId, getBlock, hb]
    · simp [setBlockInstanceId, hb, hq]

/-! ### The loop coordinate lists -/

theorem mem_irange {n : Nat} {a : Int} : a ∈ irange n ↔ 0 ≤ a ∧ a < (n : Int) := by
  simp only [irange, List.mem_map, List.mem_range]
  constructor
  · rintro ⟨i, hi, rfl⟩
    omega
  · rintro ⟨h0, hn⟩
    exact ⟨a.toNat, by omega, by omega⟩

theorem nodup_irange (n : Nat) : (irange n).Nodup :=
  (List.nodup_range n).map fun a b h => by exact_mod_cast h

theorem mem_scanList {s : Size} {p : Int × Int × Int} :
    p ∈ scanList s ↔
      0 ≤ p.1 ∧ p.1 < (s.width : Int) ∧ 0 ≤ p.2.1 ∧ p.2.1 < (s.height : Int) ∧
      0 ≤ p.2.2 ∧ p.2.2 < (s.width : Int) := by
  obtain ⟨x, y, z⟩ := p
  simp only [scanList, List.mem_flatMap, List.mem_map, mem_irange]
  constructor
  · rintro ⟨x', hx', y', hy', z', hz', h⟩
    obtain ⟨rfl, rfl, rfl⟩ : x' = x ∧ y' = y ∧ z' = z := by simpa [Prod.ext_iff] using h
    exact ⟨hx'.1, hx'.2, hy'.1, hy'.2, hz'.1, hz'.2⟩
  · rintro ⟨h1, h2, h3, h4, h5, h6⟩
    exact ⟨x, ⟨h1, h2⟩, y, ⟨h3, h4⟩, z, ⟨h5, h6⟩, rfl⟩

theorem mem_scanList_iff_inBounds {c : Chunk} {p : Int × Int × Int} :
    p ∈ scanList c.size ↔ inBounds c p.1 p.2.1 p.2.2 = true := by
  rw [mem_scanList, inBounds_iff]

theorem nodup_scanList (s : Size) : (scanList s).Nodup := by
  rw [scanList, List.nodup_flatMap]
  refine ⟨fun x _ => ?_, ?_⟩
  · rw [List.nodup_flatMap]
    refine ⟨fun y _ => (nodup_irange _).map fun a b h => by simpa using h, ?_⟩
    refine List.Pairwise.imp ?_ (nodup_irange _)
    intro a b hab
    intro q hqa hqb
    simp only [Function.onFun, List.mem_map] at hqa hqb
    obtain ⟨z1, _, rfl⟩ := hqa
    obtain ⟨z2, _, h⟩ := hqb
    exact absurd (by simpa [Prod.ext_iff] using h) (by simp [hab.symm])
  · refine List.Pairwise.imp ?_ (nodup_irange _)
    intro a b hab
    intro q hqa hqb
    simp only [Function.onFun, List.mem_flatMap, List.mem_map] at hqa hqb
    obtain ⟨y1, _, z1, _, rfl⟩ := hqa
    obtain ⟨y2, _, z2, _, h⟩ := hqb
    exact absurd (congrArg Prod.fst h).symm hab

theorem mem_colList {s : Size} {q : Int × Int} :
    q ∈ colList s ↔ 0 ≤ q.1 ∧ q.1 < (s.width : Int) ∧ 0 ≤ q.2 ∧ q.2 < (s.width : Int) := by
  obtain ⟨x, z⟩ := q
  simp only [colList, List.mem_flatMap, List.mem_map, mem_irange]
  constructor
  · rintro ⟨x', hx', z', hz', h⟩
    obtain ⟨rfl, rfl⟩ : x' = x ∧ z' = z := by simpa [Prod.ext_iff] using h
    exact ⟨hx'.1, hx'.2, hz'.1, hz'.2⟩
  · rintro ⟨h1, h2, h3, h4⟩
    exact ⟨x, ⟨h1, h2⟩, z, ⟨h3, h4⟩, rfl⟩

theorem nodup_colList (s : Size) : (colList s).Nodup := by
  rw [colList, List.nodup_flatMap]
  refine ⟨fun x _ => (nodup_irange _).map fun a b h => by simpa using h, ?_⟩
  refine List.Pairwise.imp ?_ (nodup_irange _)
  intro a b hab
  intro q hqa hqb
  simp only [Function.onFun, List.mem_map] at hqa hqb
  obtain ⟨z1, _, rfl⟩ := hqa
  obtain ⟨z2, _, h⟩ := hqb
  exact absurd (congrArg Prod.fst h).symm hab

/-! ### Generic fold lemmas -/

theorem foldl_pres {α σ : Type _} (P : σ → Prop) (f : σ → α → σ)
    (hf : ∀ s a, P s → P (f s a)) :
    ∀ (l : List α) (s : σ), P s → P (l.foldl f s) := by
  intro l
  induction l with
  | nil => exact fun s h => h
  | cons a l ih => exact fun s h => ih _ (hf s a h)

theorem foldl_rel {α σ : Type _} (R : σ → σ → Prop) (f : σ → α → σ)
    (hf : ∀ s₁ s₂ a, R s₁ s₂ → R (f s₁ a) (f s₂ a)) :
    ∀ (l : List α) (s₁ s₂ : σ), R s₁ s₂ → R (l.foldl f s₁) (l.foldl f s₂) := by
  intro l
  induction l with
  | nil => exact fun s₁ s₂ h => h
  | cons a l ih => exact fun s₁ s₂ h => ih _ _ (hf s₁ s₂ a h)

theorem foldl_inv {α σ : Type _} (P : List α → σ → Prop) (f : σ → α → σ)
    (hf : ∀ s a l, P (a :: l) s → P l (f s a)) :
    ∀ (l : List α) (s : σ), P l s → P [] (l.foldl f s) := by
  intro l
  induction l with
  | nil => exact fun s h => h
  | cons a l ih => exact fun s h => ih _ (hf s a l h)

/-- Pointwise characterization of a fold whose step touches exactly the
cell of its coordinate argument, with an effect `upd` that is stable under
the step invariant `S`. -/
theorem foldl_cell_char (step : Chunk → Int × Int × Int → Chunk) (S : Chunk → Prop)
    (upd : Int × Int × Int → Cell → Cell)
    (hS : ∀ c p, S c → S (step c p))
    (hother : ∀ c p q, S c → q ≠ p → getB (step c p) q = getB c q)
    (hself : ∀ c p, S c → getB (step c p) p = (getB c p).map (upd p)) :
    ∀ (l : List (Int × Int × Int)), l.Nodup → ∀ c, S c →
      S (l.foldl step c) ∧
      ∀ q, getB (l.foldl step c) q =
        if q ∈ l then (getB c q).map (upd q) else getB c q := by
  intro l
  induction l with
  | nil => exact fun _ c hc => ⟨hc, fun q => by simp⟩
  | cons p l ih =>
    intro hnd c hc
    obtain ⟨hp, hnd'⟩ := List.nodup_cons.mp hnd
    obtain ⟨hSfin, hchar⟩ := ih hnd' (step c p) (hS c p hc)
    refine ⟨hSfin, fun q => ?_⟩
    have hq0 := hchar q
    by_cases hql : q ∈ l
    · have hqp : q ≠ p := fun h => hp (h ▸ hql)
      rw [List.foldl_cons, hq0, if_pos hql, hother c p q hc hqp, if_pos (List.mem_cons_of_mem _ hql)]
    · by_cases hqp : q = p
      · subst hqp
        rw [List.foldl_cons, hq0, if_neg hql, hself c q hc, if_pos (List.mem_cons_self _ _)]
      · rw [List.foldl_cons, hq0, if_neg hql, hother c p q hc hqp,
          if_neg (by simp [hqp, hql])]

/-! ### Static fields along the pipeline -/

theorem SameStatic.rfl (c : Chunk) : SameStatic c c :=
  ⟨Eq.refl _, Eq.refl _, Eq.refl _, Eq.refl _, Eq.refl _, Eq.refl _⟩

theorem sameStatic_setBlockId {c₀ c : Chunk} (h : SameStatic c₀ c) (x y z : Int) (i : Nat) :
    SameStatic c₀ (setBlockId c x y z i) := by
  obtain ⟨h1, h2, h3, h4, h5, h6⟩ := h
  exact ⟨by simp [h1], by simp [h2], by simp [h3], by simp [h4], by simp [h5], by simp [h6]⟩

theorem sameStatic_setBlockInstanceId {c₀ c : Chunk} (h : SameStatic c₀ c) (x y z : Int)
    (v : Option Nat) : SameStatic c₀ (setBlockInstanceId c x y z v) := by
  obtain ⟨h1, h2, h3, h4, h5, h6⟩ := h
  exact ⟨by simp [h1], by simp [h2], by simp [h3], by simp [h4], by simp [h5], by simp [h6]⟩

theorem inBounds_of_sameStatic {c₀ c : Chunk} (h : SameStatic c₀ c) :
    inBounds c = inBounds c₀ :=
  inBounds_congr h.1

/-! ### Tupled setter lemmas -/

theorem getB_setBlockId_o {c : Chunk} {i : Nat} {p q : Int × Int × Int} (h : q ≠ p) :
    getB (setBlockId c p.1 p.2.1 p.2.2 i) q = getB c q := by
  show getBlock _ q.1 q.2.1 q.2.2 = _
  rw [getBlock_setBlockId]
  exact if_neg fun hh => h hh

theorem getB_setBlockId_s (c : Chunk) (p : Int × Int × Int) (i : Nat) :
    getB (setBlockId c p.1 p.2.1 p.2.2 i) p =
      (getB c p).map fun cell => { cell with id := i } := by
  show getBlock _ p.1 p.2.1 p.2.2 = _
  rw [getBlock_setBlockId]
  exact if_pos rfl

theorem getB_setBlockInstanceId_o {c : Chunk} {v : Option Nat} {p q : Int × Int × Int}
    (h : q ≠ p) : getB (setBlockInstanceId c p.1 p.2.1 p.2.2 v) q = getB c q := by
  show getBlock _ q.1 q.2.1 q.2.2 = _
  rw [getBlock_setBlockInstanceId]
  exact if_neg fun hh => h hh

theorem getB_setBlockInstanceId_s (c : Chunk) (p : Int × Int × Int) (v : Option Nat) :
    getB (setBlockInstanceId c p.1 p.2.1 p.2.2 v) p =
      (getB c p).map fun cell => { cell with instanceId := v } := by
  show getBlock _ p.1 p.2.1 p.2.2 = _
  rw [getBlock_setBlockInstanceId]
  exact if_pos rfl

theorem getB_setBlockIdXYZ_s (c : Chunk) (x y z : Int) (i : Nat) :
    getB (setBlockId c x y z i) (x, y, z) =
      (getB c (x, y, z)).map fun cell => { cell with id := i } := by
  show getBlock _ x y z = (getBlock c x y z).map _
  rw [getBlock_setBlockId]
  exact if_pos rfl

theorem getB_setBlockIdXYZ_o {c : Chunk} {i : Nat} {x y z : Int} {q : Int × Int × Int}
    (h : q ≠ (x, y, z)) : getB (setBlockId c x y z i) q = getB c q := by
  show getBlock _ q.1 q.2.1 q.2.2 = getBlock c q.1 q.2.1 q.2.2
  rw [getBlock_setBlockId]
  exact if_neg fun hh => h hh

theorem getB_setBlockInstanceIdXYZ_s (c : Chunk) (x y z : Int) (v : Option Nat) :
    getB (setBlockInstanceId c x y z v) (x, y, z) =
      (getB c (x, y, z)).map fun cell => { cell with instanceId := v } := by
  show getBlock _ x y z = (getBlock c x y z).map _
  rw [getBlock_setBlockInstanceId]
  exact if_pos rfl

theorem getB_setBlockInstanceIdXYZ_o {c : Chunk} {v : Option Nat} {x y z : Int}
    {q : Int × Int × Int} (h : q ≠ (x, y, z)) :
    getB (setBlockInstanceId c x y z v) q = getB c q := by
  show getBlock _ q.1 q.2.1 q.2.2 = getBlock c q.1 q.2.1 q.2.2
  rw [getBlock_setBlockInstanceId]
  exact if_neg fun hh => h hh

/-! ### Resource pass characterization -/

theorem resCond_congr (cfg : Config) (r : Resource) {c₀ c : Chunk} (h : SameStatic c₀ c)
    (p : Int × Int × Int) : resCond cfg r c p ↔ resCond cfg r c₀ p := by
  unfold resCond
  rw [h.2.1, h.2.2.1, h.2.2.2.1, h.2.2.2.2.1]

theorem resourceStep_sameStatic (cfg : Config) (r : Resource) {c₀ c : Chunk}
    (h : SameStatic c₀ c) (p : Int × Int × Int) : SameStatic c₀ (resourceStep cfg r c p) := by
  unfold resourceStep
  dsimp only
  split
  · exact sameStatic_setBlockId h _ _ _ _
  · exact h

theorem resourceStep_other (cfg : Config) (r : Resource) {c : Chunk}
    {p q : Int × Int × Int} (h : q ≠ p) : getB (resourceStep cfg r c p) q = getB c q := by
  unfold resourceStep
  dsimp only
  split
  · exact getB_setBlockId_o h
  · rfl

theorem resourceStep_self (cfg : Config) (r : Resource) {c₀ c : Chunk} (hc : SameStatic c₀ c)
    (p : Int × Int × Int) :
    getB (resourceStep cfg r c p) p =
      (getB c p).map fun cell =>
        if resCond cfg r c₀ p then { cell with id := r.id } else cell := by
  unfold resourceStep
  dsimp only
  split
  · next hcond' =>
    have hcond : resCond cfg r c₀ p := (resCond_congr cfg r hc p).mp hcond'
    rw [getB_setBlockId_s]
    have : (fun cell : Cell => { cell with id := r.id }) =
        fun cell : Cell => if resCond cfg r c₀ p then { cell with id := r.id } else cell :=
      funext fun cell => (if_pos hcond).symm
    rw [this]
  · next hcond' =>
    have hcond : ¬ resCond cfg r c₀ p := fun hh => hcond' ((resCond_congr cfg r hc p).mpr hh)
    have : (fun cell => if resCond cfg r c₀ p then { cell with id := r.id } else cell) =
        fun cell : Cell => cell := funext fun cell => by rw [if_neg hcond]
    rw [this, Option.map_id']

theorem resourcePass_char (cfg : Config) (r : Resource) (c₀ : Chunk) (c : Chunk)
    (hc : SameStatic c₀ c) :
    SameStatic c₀ ((scanList c.size).foldl (resourceStep cfg r) c) ∧
    ∀ q, getB ((scanList c.size).foldl (resourceStep cfg r) c) q =
      if q ∈ scanList c₀.size then
        (getB c q).map fun cell => if resCond cfg r c₀ q then { cell with id := r.id } else cell
      else getB c q := by
  rw [show c.size = c₀.size from hc.1]
  exact foldl_cell_char (resourceStep cfg r) (SameStatic c₀)
    (fun p cell => if resCond cfg r c₀ p then { cell with id := r.id } else cell)
    (fun c p hS => resourceStep_sameStatic cfg r hS p)
    (fun c p q hS hq => resourceStep_other cfg r hq)
    (fun c p hS => resourceStep_self cfg r hS p)
    (scanList c₀.size) (nodup_scanList _) c hc

theorem generateResources_gen_char (cfg : Config) (c₀ : Chunk) :
    ∀ (rs : List Resource) (c : Chunk), SameStatic c₀ c →
      SameStatic c₀ (rs.foldl (fun c r => (scanList c.size).foldl (resourceStep cfg r) c) c) ∧
      ∀ q, getB (rs.foldl (fun c r => (scanList c.size).foldl (resourceStep cfg r) c) c) q =
        if q ∈ scanList c₀.size then
          (getB c q).map fun cell => { cell with id := resUpdId cfg rs c₀ q cell.id }
        else getB c q := by
  intro rs
  induction rs with
  | nil =>
    intro c hc
    refine ⟨hc, fun q => ?_⟩
    have : (fun cell : Cell => { cell with id := resUpdId cfg [] c₀ q cell.id }) =
        fun cell : Cell => cell := funext fun cell => by simp [resUpdId]
    rw [this, Option.map_id']
    simp
  | cons r rs ih =>
    intro c hc
    obtain ⟨hS1, hchar1⟩ := resourcePass_char cfg r c₀ c hc
    obtain ⟨hS2, hchar2⟩ := ih _ hS1
    refine ⟨hS2, fun q => ?_⟩
    rw [List.foldl_cons, hchar2 q, hchar1 q]
    by_cases hq : q ∈ scanList c₀.size
    · rw [if_pos hq, if_pos hq, if_pos hq, Option.map_map]
      have : ((fun cell : Cell => { cell with id := resUpdId cfg rs c₀ q cell.id }) ∘
          fun cell : Cell => if resCond cfg r c₀ q then { cell with id := r.id } else cell) =
          fun cell : Cell => { cell with id := resUpdId cfg (r :: rs) c₀ q cell.id } := by
        funext cell
        by_cases hcond : resCond cfg r c₀ q <;> simp [Function.comp, hcond, resUpdId]
      rw [this]
    · rw [if_neg hq, if_neg hq, if_neg hq]

theorem generateResources_char (cfg : Config) (c₀ : Chunk) (c : Chunk) (hc : SameStatic c₀ c) :
    SameStatic c₀ (generateResources cfg c) ∧
    ∀ q, getB (generateResources cfg c) q =
      if q ∈ scanList c₀.size then
        (getB c q).map fun cell => { cell with id := resUpdId cfg cfg.resources c₀ q cell.id }
      else getB c q :=
  generateResources_gen_char cfg c₀ cfg.resources c hc

/-! ### Terrain pass characterization -/

theorem terrainHeight_congr (cfg : Config) {c₀ c : Chunk} (h : SameStatic c₀ c) (x z : Int) :
    terrainHeight cfg c x z = terrainHeight cfg c₀ x z := by
  unfold terrainHeight
  rw [h.1, h.2.1, h.2.2.1, h.2.2.2.2.1]

theorem terrainCellStep_sameStatic {c₀ c : Chunk} (hc : SameStatic c₀ c) (h x z y : Int) :
    SameStatic c₀ (terrainCellStep c h x z y) := by
  unfold terrainCellStep
  split
  · exact sameStatic_setBlockId hc _ _ _ _
  · split
    · exact sameStatic_setBlockId hc _ _ _ _
    · split
      · exact sameStatic_setBlockId hc _ _ _ _
      · exact hc

theorem terrainCellStep_other {c : Chunk} {h : Int} {p q : Int × Int × Int} (hq : q ≠ p) :
    getB (terrainCellStep c h p.1 p.2.2 p.2.1) q = getB c q := by
  unfold terrainCellStep
  split
  · exact getB_setBlockId_o hq
  · split
    · exact getB_setBlockId_o hq
    · split
      · exact getB_setBlockId_o hq
      · rfl

theorem terrainCellStep_self (c : Chunk) (h : Int) (p : Int × Int × Int) :
    getB (terrainCellStep c h p.1 p.2.2 p.2.1) p = (getB c p).map (terrUpd h p.2.1) := by
  rcases hgb : getB c p with _ | cell
  · have hgb' : getBlock c p.1 p.2.1 p.2.2 = none := hgb
    unfold terrainCellStep
    split
    · rw [getB_setBlockId_s, hgb]; rfl
    · split
      · rw [getB_setBlockId_s, hgb]; rfl
      · split
        · rw [getB_setBlockId_s, hgb]; rfl
        · rw [hgb]; rfl
  · have hgb' : getBlock c p.1 p.2.1 p.2.2 = some cell := hgb
    unfold terrainCellStep
    rw [hgb']
    by_cases h1 : p.2.1 < h ∧ cell.id = blocks.empty.id
    · rw [if_pos (by simpa using h1), getB_setBlockId_s, hgb]
      have hter : terrUpd h p.2.1 cell = { cell with id := blocks.dirt.id } := by
        unfold terrUpd
        rw [if_pos h1]
      simp [hter]
    · rw [if_neg (by simpa using h1)]
      by_cases h2 : p.2.1 = h
      · rw [if_pos h2, getB_setBlockId_s, hgb]
        have hter : terrUpd h p.2.1 cell = { cell with id := blocks.grass.id } := by
          unfold terrUpd
          rw [if_neg h1, if_pos h2]
        simp [hter]
      · rw [if_neg h2]
        by_cases h3 : h < p.2.1
        · rw [if_pos h3, getB_setBlockId_s, hgb]
          have hter : terrUpd h p.2.1 cell = { cell with id := blocks.empty.id } := by
            unfold terrUpd
            rw [if_neg h1, if_neg h2, if_pos h3]
          simp [hter]
        · rw [if_neg h3, hgb]
          have hter : terrUpd h p.2.1 cell = cell := by
            unfold terrUpd
            rw [if_neg h1, if_neg h2, if_neg h3]
          simp [hter]

theorem terrainColumn_char (cfg : Config) (c₀ : Chunk) (x z : Int) (c : Chunk)
    (hc : SameStatic c₀ c) :
    SameStatic c₀ (terrainColumn cfg c x z) ∧
    ∀ q, getB (terrainColumn cfg c x z) q =
      if q.1 = x ∧ q.2.2 = z ∧ 0 ≤ q.2.1 ∧ q.2.1 ≤ (c₀.size.height : Int) then
        (getB c q).map (terrUpd (terrainHeight cfg c₀ x z) q.2.1)
      else getB c q := by
  unfold terrainColumn
  rw [show c.size = c₀.size from hc.1, terrainHeight_congr cfg hc x z]
  have hfold : ∀ (c' : Chunk),
      (irange (c₀.size.height + 1)).foldl
        (fun c y => terrainCellStep c (terrainHeight cfg c₀ x z) x z y) c' =
      ((irange (c₀.size.height + 1)).map fun y => (x, y, z)).foldl
        (fun c p => terrainCellStep c (terrainHeight cfg c₀ x z) p.1 p.2.2 p.2.1) c' := by
    intro c'
    rw [List.foldl_map]
  rw [hfold]
  have hnd : (((irange (c₀.size.height + 1)).map fun y => (x, y, z))).Nodup :=
    (nodup_irange _).map fun a b hab => by simpa [Prod.ext_iff] using hab
  obtain ⟨hSf, hcharf⟩ := foldl_cell_char
    (fun c p => terrainCellStep c (terrainHeight cfg c₀ x z) p.1 p.2.2 p.2.1)
    (SameStatic c₀) (fun p => terrUpd (terrainHeight cfg c₀ x z) p.2.1)
    (fun c p hS => terrainCellStep_sameStatic hS _ _ _ _)
    (fun c p q hS hq => terrainCellStep_other hq)
    (fun c p hS => terrainCellStep_self c _ p)
    _ hnd c hc
  refine ⟨hSf, fun q => ?_⟩
  rw [hcharf q]
  have hmem : (q ∈ (irange (c₀.size.height + 1)).map fun y => (x, y, z)) ↔
      (q.1 = x ∧ q.2.2 = z ∧ 0 ≤ q.2.1 ∧ q.2.1 ≤ (c₀.size.height : Int)) := by
    obtain ⟨qx, qy, qz⟩ := q
    simp only [List.mem_map, mem_irange, Prod.ext_iff]
    constructor
    · rintro ⟨y', ⟨hy1, hy2⟩, hx, hy, hz⟩
      subst hx; subst hz; subst hy
      exact ⟨rfl, rfl, hy1, by omega⟩
    · rintro ⟨rfl, rfl, h1, h2⟩
      exact ⟨qy, ⟨h1, by omega⟩, rfl, rfl, rfl⟩
  by_cases hq : q.1 = x ∧ q.2.2 = z ∧ 0 ≤ q.2.1 ∧ q.2.1 ≤ (c₀.size.height : Int)
  · rw [if_pos (hmem.mpr hq), if_pos hq]
  · rw [if_neg (fun hh => hq (hmem.mp hh)), if_neg hq]

theorem terrainCols_char (cfg : Config) (c₀ : Chunk) :
    ∀ (L : List (Int × Int)), L.Nodup → ∀ c, SameStatic c₀ c →
      SameStatic c₀ (L.foldl (fun c q => terrainColumn cfg c q.1 q.2) c) ∧
      ∀ q : Int × Int × Int,
        getB (L.foldl (fun c q => terrainColumn cfg c q.1 q.2) c) q =
          if (q.1, q.2.2) ∈ L ∧ 0 ≤ q.2.1 ∧ q.2.1 ≤ (c₀.size.height : Int) then
            (getB c q).map (terrUpd (terrainHeight cfg c₀ q.1 q.2.2) q.2.1)
          else getB c q := by
  intro L
  induction L with
  | nil => exact fun _ c hc => ⟨hc, fun q => by simp⟩
  | cons col L ih =>
    intro hnd c hc
    obtain ⟨hcol, hnd'⟩ := List.nodup_cons.mp hnd
    obtain ⟨hS1, hchar1⟩ := terrainColumn_char cfg c₀ col.1 col.2 c hc
    obtain ⟨hS2, hchar2⟩ := ih hnd' _ hS1
    refine ⟨hS2, fun q => ?_⟩
    rw [List.foldl_cons, hchar2 q, hchar1 q]
    by_cases hyr : 0 ≤ q.2.1 ∧ q.2.1 ≤ (c₀.size.height : Int)
    · by_cases hin : (q.1, q.2.2) ∈ L
      · have hne : ¬ (q.1 = col.1 ∧ q.2.2 = col.2 ∧ 0 ≤ q.2.1 ∧ q.2.1 ≤ (c₀.size.height : Int)) := by
          rintro ⟨h1, h2, -⟩
          rw [h1, h2] at hin
          exact hcol hin
        rw [if_pos ⟨hin, hyr⟩, if_neg hne, if_pos ⟨List.mem_cons_of_mem _ hin, hyr⟩]
      · by_cases hcq : (q.1, q.2.2) = col
        · have h1 : q.1 = col.1 := by rw [← hcq]
          have h2 : q.2.2 = col.2 := by rw [← hcq]
          rw [if_neg (by simp [hin]), if_pos ⟨h1, h2, hyr⟩,
            if_pos ⟨by rw [hcq]; exact List.mem_cons_self _ _, hyr⟩, h1, h2]
        · have hne1 : ¬ ((q.1, q.2.2) ∈ col :: L ∧ 0 ≤ q.2.1 ∧ q.2.1 ≤ (c₀.size.height : Int)) := by
            rintro ⟨hmem, -⟩
            rcases List.mem_cons.mp hmem with h | h
            · exact hcq h
            · exact hin h
          have hne2 : ¬ (q.1 = col.1 ∧ q.2.2 = col.2 ∧ 0 ≤ q.2.1 ∧
              q.2.1 ≤ (c₀.size.height : Int)) := by
            rintro ⟨h1, h2, -⟩
            exact hcq (by rw [h1, h2])
          rw [if_neg (by simp [hin]), if_neg hne2, if_neg hne1]
    · rw [if_neg (by rintro ⟨-, hh⟩; exact hyr hh), if_neg (by rintro ⟨-, -, hh⟩; exact hyr hh),
        if_neg (by rintro ⟨-, hh⟩; exact hyr hh)]

theorem generateTerrain_char (cfg : Config) (c₀ : Chunk) (c : Chunk) (hc : SameStatic c₀ c) :
    SameStatic c₀ (generateTerrain cfg c) ∧
    ∀ q, getB (generateTerrain cfg c) q =
      if 0 ≤ q.1 ∧ q.1 < (c₀.size.width : Int) ∧ 0 ≤ q.2.2 ∧ q.2.2 < (c₀.size.width : Int) ∧
          0 ≤ q.2.1 ∧ q.2.1 ≤ (c₀.size.height : Int) then
        (getB c q).map (terrUpd (terrainHeight cfg c₀ q.1 q.2.2) q.2.1)
      else getB c q := by
  unfold generateTerrain
  rw [show c.size = c₀.size from hc.1]
  obtain ⟨hSf, hcharf⟩ := terrainCols_char cfg c₀ (colList c₀.size) (nodup_colList _) c hc
  refine ⟨hSf, fun q => ?_⟩
  rw [hcharf q]
  by_cases hq : 0 ≤ q.1 ∧ q.1 < (c₀.size.width : Int) ∧ 0 ≤ q.2.2 ∧ q.2.2 < (c₀.size.width : Int) ∧
      0 ≤ q.2.1 ∧ q.2.1 ≤ (c₀.size.height : Int)
  · rw [if_pos ⟨mem_colList.mpr ⟨hq.1, hq.2.1, hq.2.2.1, hq.2.2.2.1⟩, hq.2.2.2.2⟩, if_pos hq]
  · rw [if_neg (fun hh => hq ?_), if_neg hq]
    have hm := mem_colList.mp hh.1
    exact ⟨hm.1, hm.2.1, hm.2.2.1, hm.2.2.2, hh.2⟩

/-! ### Edit overlay characterization -/

theorem loadStep_sameStatic {c₀ c : Chunk} (hc : SameStatic c₀ c) (p : Int × Int × Int) :
    SameStatic c₀ (loadStep c p) := by
  unfold loadStep
  split
  · exact sameStatic_setBlockId hc _ _ _ _
  · exact hc

theorem loadStep_other {c : Chunk} {p q : Int × Int × Int} (hq : q ≠ p) :
    getB (loadStep c p) q = getB c q := by
  unfold loadStep
  split
  · exact getB_setBlockId_o hq
  · rfl

theorem loadStep_self {c₀ c : Chunk} (hc : SameStatic c₀ c) (p : Int × Int × Int) :
    getB (loadStep c p) p = (getB c p).map (loadUpd c₀ p) := by
  unfold loadStep
  rw [hc.2.2.2.2.2, hc.2.2.1, hc.2.2.2.2.1]
  split
  · next hcond =>
    rw [getB_setBlockId_s]
    have : (fun cell : Cell =>
        { cell with id := c₀.dataStore.get c₀.posX c₀.posZ p.1 p.2.1 p.2.2 }) =
        loadUpd c₀ p := by
      funext cell
      rw [loadUpd, if_pos hcond]
    rw [this]
  · next hcond =>
    have : loadUpd c₀ p = fun cell : Cell => cell := by
      funext cell
      rw [loadUpd, if_neg hcond]
    rw [this, Option.map_id']

theorem loadPlayerChanges_char (c₀ : Chunk) (c : Chunk) (hc : SameStatic c₀ c) :
    SameStatic c₀ (loadPlayerChanges c) ∧
    ∀ q, getB (loadPlayerChanges c) q =
      if q ∈ scanList c₀.size then (getB c q).map (loadUpd c₀ q) else getB c q := by
  unfold loadPlayerChanges
  rw [show c.size = c₀.size from hc.1]
  exact foldl_cell_char loadStep (SameStatic c₀) (loadUpd c₀)
    (fun c p hS => loadStep_sameStatic hS p)
    (fun c p q hS hq => loadStep_other hq)
    (fun c p hS => loadStep_self hS p)
    (scanList c₀.size) (nodup_scanList _) c hc

/-! ### Mesh pass preserves the block ids -/

theorem sameStatic_update_batches {c₀ c : Chunk} (hc : SameStatic c₀ c) (f : Nat → Batch) :
    SameStatic c₀ { c with batches := f } := hc

theorem sameStatic_clearBatches {c₀ c : Chunk} (hc : SameStatic c₀ c) :
    SameStatic c₀ (clearBatches c) := hc

theorem meshStep_sameStatic {c₀ c : Chunk} (hc : SameStatic c₀ c) (p : Int × Int × Int) :
    SameStatic c₀ (meshStep c p) := by
  unfold meshStep
  rcases hgb : getBlock c p.1 p.2.1 p.2.2 with _ | cell
  · exact hc
  · dsimp only
    split
    · exact hc
    · split
      · exact hc
      · exact sameStatic_setBlockInstanceId (sameStatic_update_batches hc _) _ _ _ _

theorem meshStep_ids (c : Chunk) (p q : Int × Int × Int) :
    (getB (meshStep c p) q).map Cell.id = (getB c q).map Cell.id := by
  unfold meshStep
  rcases hgb : getBlock c p.1 p.2.1 p.2.2 with _ | cell
  · rfl
  · dsimp only
    split
    · rfl
    · split
      · rfl
      · by_cases hq : q = p
        · subst hq
          rw [getB_setBlockInstanceId_s, Option.map_map]
          rfl
        · rw [getB_setBlockInstanceId_o hq]
          rfl

theorem generateMeshes_ids (c₀ : Chunk) (c : Chunk) (hc : SameStatic c₀ c) :
    SameStatic c₀ (generateMeshes c) ∧
    ∀ q, (getB (generateMeshes c) q).map Cell.id = (getB c q).map Cell.id := by
  unfold generateMeshes
  exact foldl_pres
    (fun c' => SameStatic c₀ c' ∧ ∀ q, (getB c' q).map Cell.id = (getB c q).map Cell.id)
    meshStep
    (fun c' p hP => ⟨meshStep_sameStatic hP.1 p, fun q => (meshStep_ids c' p q).trans (hP.2 q)⟩)
    (scanList (clearBatches c).size) (clearBatches c)
    ⟨sameStatic_clearBatches hc, fun q => rfl⟩

/-! ### The id a full generation run leaves at each coordinate -/

theorem initializeTerrain_sameStatic (c : Chunk) : SameStatic c (initializeTerrain c) :=
  SameStatic.rfl c

theorem getB_initializeTerrain (c : Chunk) (q : Int × Int × Int) :
    getB (initializeTerrain c) q =
      if inBounds c q.1 q.2.1 q.2.2 then some ⟨blocks.empty.id, none⟩ else none := by
  show getBlock _ _ _ _ = _
  by_cases h : inBounds c q.1 q.2.1 q.2.2 <;> simp [initializeTerrain, getBlock, h]

theorem getB_update_loaded (c : Chunk) (b : Bool) (q : Int × Int × Int) :
    getB { c with loaded := b } q = getB c q := rfl

theorem sameStatic_update_loaded {c₀ c : Chunk} (h : SameStatic c₀ c) (b : Bool) :
    SameStatic c₀ { c with loaded := b } := h

theorem generate_sameStatic (cfg : Config) (c : Chunk) : SameStatic c (generate cfg c) := by
  have hS1 := initializeTerrain_sameStatic c
  have hS2 := (generateResources_char cfg c _ hS1).1
  have hS3 := (generateTerrain_char cfg c _ hS2).1
  have hS4 := (loadPlayerChanges_char c _ hS3).1
  have hS5 := (generateMeshes_ids c _ hS4).1
  unfold generate
  exact sameStatic_update_loaded hS5 true

theorem generate_ids (cfg : Config) (c : Chunk) (q : Int × Int × Int) :
    (getB (generate cfg c) q).map Cell.id =
      if inBounds c q.1 q.2.1 q.2.2 then some (overlaidIdAt cfg c q) else none := by
  have hS1 := initializeTerrain_sameStatic c
  obtain ⟨hS2, hchar2⟩ := generateResources_char cfg c _ hS1
  obtain ⟨hS3, hchar3⟩ := generateTerrain_char cfg c _ hS2
  obtain ⟨hS4, hchar4⟩ := loadPlayerChanges_char c _ hS3
  obtain ⟨hS5, hids5⟩ := generateMeshes_ids c _ hS4
  have hgen : (getB (generate cfg c) q).map Cell.id =
      (getB (loadPlayerChanges (generateTerrain cfg
        (generateResources cfg (initializeTerrain c)))) q).map Cell.id := by
    unfold generate
    rw [getB_update_loaded]
    exact hids5 q
  rw [hgen, hchar4 q, hchar3 q, hchar2 q, getB_initializeTerrain]
  by_cases hb : inBounds c q.1 q.2.1 q.2.2
  · have hmem : q ∈ scanList c.size := mem_scanList_iff_inBounds.mpr hb
    have hbnd := inBounds_iff.mp hb
    have hterr : 0 ≤ q.1 ∧ q.1 < (c.size.width : Int) ∧ 0 ≤ q.2.2 ∧
        q.2.2 < (c.size.width : Int) ∧ 0 ≤ q.2.1 ∧ q.2.1 ≤ (c.size.height : Int) :=
      ⟨hbnd.1, hbnd.2.1, hbnd.2.2.2.2.1, hbnd.2.2.2.2.2, hbnd.2.2.1, le_of_lt hbnd.2.2.2.1⟩
    simp only [eq_true hb, eq_true hmem, eq_true hterr, if_true, Option.map_some']
    rw [overlaidIdAt, loadUpd]
    by_cases hcont : c.dataStore.contains c.posX c.posZ q.1 q.2.1 q.2.2 = true
    · rw [if_pos hcont, if_pos hcont]
    · rw [if_neg hcont, if_neg hcont]
      rw [generatedIdAt, resourceIdAt]
  · have hnm : q ∉ scanList c.size := fun hh => hb (mem_scanList_iff_inBounds.mp hh)
    by_cases hterr : 0 ≤ q.1 ∧ q.1 < (c.size.width : Int) ∧ 0 ≤ q.2.2 ∧
        q.2.2 < (c.size.width : Int) ∧ 0 ≤ q.2.1 ∧ q.2.1 ≤ (c.size.height : Int)
    · simp only [eq_false hb, eq_false hnm, eq_true hterr, if_true, if_false, Option.map_none']
    · simp only [eq_false hb, eq_false hnm, eq_false hterr, if_false, Option.map_none']

theorem cell_ext {a b : Cell} (h1 : a.id = b.id) (h2 : a.instanceId = b.instanceId) : a = b := by
  cases a
  cases b
  cases h1
  cases h2
  rfl

theorem terrUpd_instanceId (h y : Int) (cell : Cell) :
    (terrUpd h y cell).instanceId = cell.instanceId := by
  unfold terrUpd
  split
  · rfl
  · split
    · rfl
    · split
      · rfl
      · rfl

theorem loadUpd_instanceId (c₀ : Chunk) (p : Int × Int × Int) (cell : Cell) :
    (loadUpd c₀ p cell).instanceId = cell.instanceId := by
  unfold loadUpd
  split
  · rfl
  · rfl

/-- Full characterization of the state right before the mesh pass: every
in-bounds cell holds the pipeline id and no instance; nothing is stored out
of bounds. -/
theorem preMesh_char (cfg : Config) (c : Chunk) (q : Int × Int × Int) :
    getB (loadPlayerChanges (generateTerrain cfg
        (generateResources cfg (initializeTerrain c)))) q =
      if inBounds c q.1 q.2.1 q.2.2 then some ⟨overlaidIdAt cfg c q, none⟩ else none := by
  have hS1 := initializeTerrain_sameStatic c
  obtain ⟨hS2, hchar2⟩ := generateResources_char cfg c _ hS1
  obtain ⟨hS3, hchar3⟩ := generateTerrain_char cfg c _ hS2
  obtain ⟨hS4, hchar4⟩ := loadPlayerChanges_char c _ hS3
  rw [hchar4 q, hchar3 q, hchar2 q, getB_initializeTerrain]
  by_cases hb : inBounds c q.1 q.2.1 q.2.2
  · have hmem : q ∈ scanList c.size := mem_scanList_iff_inBounds.mpr hb
    have hbnd := inBounds_iff.mp hb
    have hterr : 0 ≤ q.1 ∧ q.1 < (c.size.width : Int) ∧ 0 ≤ q.2.2 ∧
        q.2.2 < (c.size.width : Int) ∧ 0 ≤ q.2.1 ∧ q.2.1 ≤ (c.size.height : Int) :=
      ⟨hbnd.1, hbnd.2.1, hbnd.2.2.2.2.1, hbnd.2.2.2.2.2, hbnd.2.2.1, le_of_lt hbnd.2.2.2.1⟩
    simp only [eq_true hb, eq_true hmem, eq_true hterr, if_true, Option.map_some']
    refine congrArg some (cell_ext ?_ ?_)
    · show (loadUpd c q _).id = overlaidIdAt cfg c q
      rw [overlaidIdAt, loadUpd]
      by_cases hcont : c.dataStore.contains c.posX c.posZ q.1 q.2.1 q.2.2 = true
      · rw [if_pos hcont, if_pos hcont]
      · rw [if_neg hcont, if_neg hcont]
        rw [generatedIdAt, resourceIdAt]
    · show (loadUpd c q _).instanceId = none
      rw [loadUpd_instanceId, terrUpd_instanceId]
  · have hnm : q ∉ scanList c.size := fun hh => hb (mem_scanList_iff_inBounds.mp hh)
    by_cases hterr : 0 ≤ q.1 ∧ q.1 < (c.size.width : Int) ∧ 0 ≤ q.2.2 ∧
        q.2.2 < (c.size.width : Int) ∧ 0 ≤ q.2.1 ∧ q.2.1 ≤ (c.size.height : Int)
    · simp only [eq_false hb, eq_false hnm, eq_true hterr, if_true, if_false, Option.map_none']
    · simp only [eq_false hb, eq_false hnm, eq_false hterr, if_false, Option.map_none']

/-! ### No stray cells: all writes are bounds checked -/

theorem inB_congr {c c' : Chunk} (h : c'.size = c.size) (p : Int × Int × Int) :
    InB c' p ↔ InB c p := by
  unfold InB
  rw [inBounds_congr h]

theorem noStray_setBlockId {c : Chunk} (hc : NoStray c) (x y z : Int) (i : Nat) :
    NoStray (setBlockId c x y z i) := by
  intro p hp
  have hp' : ¬ InB c p := fun hh => hp ((inB_congr (setBlockId_size c x y z i) p).mpr hh)
  unfold setBlockId
  split
  · next hin =>
    show updCell c.data x y z _ p.1 p.2.1 p.2.2 = none
    by_cases hq : (p.1, p.2.1, p.2.2) = (x, y, z)
    · exfalso
      apply hp'
      show inBounds c p.1 p.2.1 p.2.2 = true
      obtain ⟨h1, h2, h3⟩ : p.1 = x ∧ p.2.1 = y ∧ p.2.2 = z := by
        simpa [Prod.ext_iff] using hq
      rw [h1, h2, h3]
      exact hin
    · rw [updCell_other _ _ _ _ _ hq]
      exact hc p hp'
  · exact hc p hp'

theorem noStray_setBlockInstanceId {c : Chunk} (hc : NoStray c) (x y z : Int)
    (v : Option Nat) : NoStray (setBlockInstanceId c x y z v) := by
  intro p hp
  have hp' : ¬ InB c p := fun hh => hp ((inB_congr (setBlockInstanceId_size c x y z v) p).mpr hh)
  unfold setBlockInstanceId
  split
  · next hin =>
    show updCell c.data x y z _ p.1 p.2.1 p.2.2 = none
    by_cases hq : (p.1, p.2.1, p.2.2) = (x, y, z)
    · exfalso
      apply hp'
      show inBounds c p.1 p.2.1 p.2.2 = true
      obtain ⟨h1, h2, h3⟩ : p.1 = x ∧ p.2.1 = y ∧ p.2.2 = z := by
        simpa [Prod.ext_iff] using hq
      rw [h1, h2, h3]
      exact hin
    · rw [updCell_other _ _ _ _ _ hq]
      exact hc p hp'
  · exact hc p hp'

theorem noStray_update_batches {c : Chunk} (hc : NoStray c) (f : Nat → Batch) :
    NoStray { c with batches := f } := hc

theorem noStray_update_loaded {c : Chunk} (hc : NoStray c) (b : Bool) :
    NoStray { c with loaded := b } := hc

theorem noStray_initializeTerrain (c : Chunk) : NoStray (initializeTerrain c) := by
  intro p hp
  have hp' : ¬ (inBounds c p.1 p.2.1 p.2.2 = true) := hp
  unfold initializeTerrain
  dsimp only
  rw [if_neg hp']

theorem noStray_resourceStep {c : Chunk} (hc : NoStray c) (cfg : Config) (r : Resource)
    (p : Int × Int × Int) : NoStray (resourceStep cfg r c p) := by
  unfold resourceStep
  dsimp only
  split
  · exact noStray_setBlockId hc _ _ _ _
  · exact hc

theorem noStray_terrainCellStep {c : Chunk} (hc : NoStray c) (h x z y : Int) :
    NoStray (terrainCellStep c h x z y) := by
  unfold terrainCellStep
  split
  · exact noStray_setBlockId hc _ _ _ _
  · split
    · exact noStray_setBlockId hc _ _ _ _
    · split
      · exact noStray_setBlockId hc _ _ _ _
      · exact hc

theorem noStray_loadStep {c : Chunk} (hc : NoStray c) (p : Int × Int × Int) :
    NoStray (loadStep c p) := by
  unfold loadStep
  split
  · exact noStray_setBlockId hc _ _ _ _
  · exact hc

theorem noStray_meshStep {c : Chunk} (hc : NoStray c) (p : Int × Int × Int) :
    NoStray (meshStep c p) := by
  unfold meshStep
  rcases hgb : getBlock c p.1 p.2.1 p.2.2 with _ | cell
  · exact hc
  · dsimp only
    split
    · exact hc
    · split
      · exact hc
      · exact noStray_setBlockInstanceId (noStray_update_batches hc _) _ _ _ _

theorem noStray_generate (cfg : Config) (c : Chunk) : NoStray (generate cfg c) := by
  have h1 : NoStray (initializeTerrain c) := noStray_initializeTerrain c
  have h2 : NoStray (generateResources cfg (initializeTerrain c)) := by
    unfold generateResources
    exact foldl_pres NoStray _
      (fun c' r hc => foldl_pres NoStray _
        (fun c'' p hc' => noStray_resourceStep hc' cfg r p) _ _ hc) _ _ h1
  have h3 : NoStray (generateTerrain cfg (generateResources cfg (initializeTerrain c))) := by
    unfold generateTerrain
    refine foldl_pres NoStray _ (fun c' q hc => ?_) _ _ h2
    unfold terrainColumn
    exact foldl_pres NoStray _ (fun c'' y hc' => noStray_terrainCellStep hc' _ _ _ _) _ _ hc
  have h4 : NoStray (loadPlayerChanges (generateTerrain cfg
      (generateResources cfg (initializeTerrain c)))) := by
    unfold loadPlayerChanges
    exact foldl_pres NoStray _ (fun c' p hc => noStray_loadStep hc p) _ _ h3
  have h5 : NoStray (generateMeshes (loadPlayerChanges (generateTerrain cfg
      (generateResources cfg (initializeTerrain c))))) := by
    unfold generateMeshes
    exact foldl_pres NoStray _ (fun c' p hc => noStray_meshStep hc p) _ _
      (noStray_update_batches h4 _)
  unfold generate
  exact noStray_update_loaded h5 true

theorem noStray_addBlockInstance {c : Chunk} (hc : NoStray c) (x y z : Int) :
    NoStray (addBlockInstance c x y z) := by
  unfold addBlockInstance
  rcases hgb : getBlock c x y z with _ | cell
  · exact hc
  · dsimp only
    split
    · exact noStray_setBlockInstanceId (noStray_update_batches hc _) _ _ _ _
    · exact hc

theorem noStray_update_dataStore {c : Chunk} (hc : NoStray c) (s : Store) :
    NoStray { c with dataStore := s } := hc

theorem noStray_deleteBlockInstance {c : Chunk} (hc : NoStray c) (x y z : Int) :
    NoStray (deleteBlockInstance c x y z) := by
  unfold deleteBlockInstance
  rcases hgb : getBlock c x y z with _ | cell
  · exact hc
  · dsimp only
    rcases h2 : cell.instanceId with _ | k
    · exact hc
    · exact noStray_setBlockInstanceId
        (noStray_update_batches (noStray_setBlockInstanceId hc _ _ _ _) _) _ _ _ _

theorem noStray_addBlock {c : Chunk} (hc : NoStray c) (x y z : Int) (i : Nat) :
    NoStray (addBlock c x y z i) := by
  unfold addBlock
  rcases hgb : getBlock c x y z with _ | cell
  · exact hc
  · dsimp only
    split
    · exact noStray_update_dataStore
        (noStray_addBlockInstance (noStray_setBlockId hc _ _ _ _) _ _ _) _
    · exact hc

theorem noStray_removeBlock {c : Chunk} (hc : NoStray c) (x y z : Int) :
    NoStray (removeBlock c x y z) := by
  unfold removeBlock
  rcases hgb : getBlock c x y z with _ | cell
  · exact hc
  · dsimp only
    split
    · exact noStray_update_dataStore
        (noStray_setBlockId (noStray_deleteBlockInstance hc _ _ _) _ _ _ _) _
    · exact hc

theorem noStray_applyEdits {c : Chunk} (hc : NoStray c) (ops : List EditOp) :
    NoStray (applyEdits c ops) := by
  unfold applyEdits
  refine foldl_pres NoStray _ (fun c' op hc' => ?_) _ _ hc
  cases op with
  | add x y z i => exact noStray_addBlock hc' x y z i
  | remove x y z => exact noStray_removeBlock hc' x y z

/-! ### The mesh pass establishes the render invariant -/

theorem getB_update_batches (c : Chunk) (f : Nat → Batch) (q : Int × Int × Int) :
    getB { c with batches := f } q = getB c q := rfl

theorem meshStep_inv {c : Chunk} (hInv : Inv c) {p : Int × Int × Int} {cf : Cell}
    (hfresh : getB c p = some cf) (hfi : cf.instanceId = none) :
    Inv (meshStep c p) ∧
    (∀ q, q ≠ p → getB (meshStep c p) q = getB c q) ∧
    ((∃ cell k, getB (meshStep c p) p = some cell ∧ cell.instanceId = some k) ↔
      (cf.id ≠ blocks.empty.id ∧ isBlockObscured c p.1 p.2.1 p.2.2 = false)) := by
  have hgb : getBlock c p.1 p.2.1 p.2.2 = some cf := hfresh
  have hnovis : ¬ ∃ cell k, getB c p = some cell ∧ cell.instanceId = some k := by
    rintro ⟨cell, k, hcell, hk⟩
    rw [hfresh] at hcell
    obtain rfl : cf = cell := by injection hcell
    rw [hfi] at hk
    exact Option.noConfusion hk
  unfold meshStep
  rw [hgb]
  dsimp only
  by_cases hid : cf.id = blocks.empty.id
  · rw [if_pos hid]
    refine ⟨hInv, fun q _ => rfl, ?_⟩
    constructor
    · intro h
      exact absurd h hnovis
    · rintro ⟨hne, -⟩
      exact absurd hid hne
  · rw [if_neg hid]
    by_cases hobs : isBlockObscured c p.1 p.2.1 p.2.2 = true
    · rw [if_pos hobs]
      refine ⟨hInv, fun q _ => rfl, ?_⟩
      constructor
      · intro h
        exact absurd h hnovis
      · rintro ⟨-, hfalse⟩
        rw [hobs] at hfalse
        exact Bool.noConfusion hfalse
    · have hobs' : isBlockObscured c p.1 p.2.1 p.2.2 = false := by
        cases hb : isBlockObscured c p.1 p.2.1 p.2.2
        · rfl
        · exact absurd hb hobs
      rw [if_neg hobs]
      set n := (c.batches cf.id).count with hn
      set newB : Nat → Batch := fun i =>
        if i = cf.id then ⟨n + 1, fun k => if k = n then p else (c.batches cf.id).mats k⟩
        else c.batches i with hnewB
      have hr_p : getB (setBlockInstanceId { c with batches := newB } p.1 p.2.1 p.2.2
          (some n)) p = some { cf with instanceId := some n } := by
        rw [getB_setBlockInstanceId_s, getB_update_batches, hfresh]
        rfl
      have hr_o : ∀ q, q ≠ p → getB (setBlockInstanceId { c with batches := newB }
          p.1 p.2.1 p.2.2 (some n)) q = getB c q := by
        intro q hq
        rw [getB_setBlockInstanceId_o hq, getB_update_batches]
      have hr_b : (setBlockInstanceId { c with batches := newB } p.1 p.2.1 p.2.2
          (some n)).batches = newB := by
        rw [setBlockInstanceId_batches]
      have hBc : (setBlockInstanceId { c with batches := newB } p.1 p.2.1 p.2.2
          (some n)).batches cf.id =
          ⟨n + 1, fun k => if k = n then p else (c.batches cf.id).mats k⟩ := by
        rw [hr_b, hnewB]
        exact if_pos rfl
      have hBo : ∀ j, j ≠ cf.id → (setBlockInstanceId { c with batches := newB } p.1 p.2.1
          p.2.2 (some n)).batches j = c.batches j := by
        intro j hj
        rw [hr_b, hnewB]
        exact if_neg hj
      refine ⟨⟨?_, ?_, ?_⟩, hr_o, ?_⟩
      · intro q cell hcell hcid
        by_cases hq : q = p
        · subst hq
          rw [hr_p] at hcell
          obtain rfl : ({ cf with instanceId := some n } : Cell) = cell := by injection hcell
          exact absurd hcid hid
        · exact hInv.emptyNone q cell (by rw [← hr_o q hq]; exact hcell) hcid
      · intro q cell k hcell hk
        by_cases hq : q = p
        · subst hq
          rw [hr_p] at hcell
          obtain rfl : ({ cf with instanceId := some n } : Cell) = cell := by injection hcell
          obtain rfl : n = k := by injection hk
          dsimp only
          rw [hBc]
          exact ⟨Nat.lt_succ_self n, if_pos rfl⟩
        · have hcq : getB c q = some cell := by rw [← hr_o q hq]; exact hcell
          obtain ⟨hk1, hk2⟩ := hInv.slot q cell k hcq hk
          by_cases hcid : cell.id = cf.id
          · rw [hcid] at hk1 hk2 ⊢
            rw [hBc]
            have hkn : k ≠ n := by omega
            refine ⟨?_, ?_⟩
            · show k < n + 1
              omega
            · show (if k = n then p else (c.batches cf.id).mats k) = q
              rw [if_neg hkn]
              exact hk2
          · rw [hBo cell.id hcid]
            exact ⟨hk1, hk2⟩
      · intro j k hj hk
        by_cases hjc : j = cf.id
        · subst hjc
          rw [hBc] at hk ⊢
          dsimp only at hk ⊢
          by_cases hkn : k = n
          · subst hkn
            rw [if_pos rfl]
            exact ⟨{ cf with instanceId := some n }, hr_p, rfl, rfl⟩
          · rw [if_neg hkn]
            have hklt : k < n := by omega
            obtain ⟨cell, hcell, hcid, hcinst⟩ := hInv.dense cf.id k hj hklt
            have hw : (c.batches cf.id).mats k ≠ p := by
              intro hwp
              rw [hwp, hfresh] at hcell
              obtain rfl : cell = cf := by injection hcell with h; exact h.symm
              rw [hfi] at hcinst
              exact Option.noConfusion hcinst
            exact ⟨cell, by rw [hr_o _ hw]; exact hcell, hcid, hcinst⟩
        · rw [hBo j hjc] at hk ⊢
          obtain ⟨cell, hcell, hcid, hcinst⟩ := hInv.dense j k hj hk
          have hw : (c.batches j).mats k ≠ p := by
            intro hwp
            rw [hwp, hfresh] at hcell
            obtain rfl : cell = cf := by injection hcell with h; exact h.symm
            exact hjc (hcid.symm ▸ rfl)
          exact ⟨cell, by rw [hr_o _ hw]; exact hcell, hcid, hcinst⟩
      · refine iff_of_true ⟨{ cf with instanceId := some n }, n, hr_p, rfl⟩ ⟨hid, hobs'⟩

theorem isBlockObscured_congr {c c' : Chunk}
    (h : ∀ x y z : Int, (getBlock c' x y z).map Cell.id = (getBlock c x y z).map Cell.id)
    (x y z : Int) : isBlockObscured c' x y z = isBlockObscured c x y z := by
  unfold isBlockObscured blockIdOr
  rw [h x (y + 1) z, h x (y - 1) z, h (x + 1) y z, h (x - 1) y z, h x y (z + 1), h x y (z - 1)]

theorem meshFold_inv (cs : Chunk) (l : List (Int × Int × Int)) (c : Chunk)
    (hnd : l.Nodup)
    (hids : ∀ q, (getB c q).map Cell.id = (getB cs q).map Cell.id)
    (hInv : Inv c)
    (hfr : ∀ p ∈ l, ∃ cell, getB c p = some cell ∧ cell.instanceId = none)
    (hdone : ∀ p, p ∉ l →
      ((∃ cell k, getB c p = some cell ∧ cell.instanceId = some k) ↔
        (∃ cell, getB cs p = some cell ∧ cell.id ≠ blocks.empty.id ∧
          isBlockObscured cs p.1 p.2.1 p.2.2 = false))) :
    Inv (l.foldl meshStep c) ∧
    (∀ q, (getB (l.foldl meshStep c) q).map Cell.id = (getB cs q).map Cell.id) ∧
    (∀ p, (∃ cell k, getB (l.foldl meshStep c) p = some cell ∧ cell.instanceId = some k) ↔
      (∃ cell, getB cs p = some cell ∧ cell.id ≠ blocks.empty.id ∧
        isBlockObscured cs p.1 p.2.1 p.2.2 = false)) := by
  induction l generalizing c with
  | nil =>
    exact ⟨hInv, hids, fun p => hdone p (by simp)⟩
  | cons p l ih =>
    obtain ⟨hp, hnd'⟩ := List.nodup_cons.mp hnd
    obtain ⟨cf, hcf, hcfi⟩ := hfr p (List.mem_cons_self _ _)
    obtain ⟨hInv', hother, hchar⟩ := meshStep_inv hInv hcf hcfi
    rw [List.foldl_cons]
    apply ih _ hnd'
    · intro q
      exact (meshStep_ids c p q).trans (hids q)
    · exact hInv'
    · intro p' hp'
      have hne : p' ≠ p := fun hh => hp (hh ▸ hp')
      rw [hother p' hne]
      exact hfr p' (List.mem_cons_of_mem _ hp')
    · intro p' hp'
      by_cases hpp : p' = p
      · subst hpp
        refine hchar.trans ?_
        have hmap : (getB cs p').map Cell.id = some cf.id := by
          rw [← hids p', hcf]
          rfl
        obtain ⟨csCell, hcs, hcsid⟩ := Option.map_eq_some'.mp hmap
        have hobs_eq : isBlockObscured c p'.1 p'.2.1 p'.2.2 =
            isBlockObscured cs p'.1 p'.2.1 p'.2.2 :=
          isBlockObscured_congr (fun x y z => hids (x, y, z)) p'.1 p'.2.1 p'.2.2
        constructor
        · rintro ⟨hne, hfalse⟩
          exact ⟨csCell, hcs, by rw [hcsid]; exact hne, by rw [← hobs_eq]; exact hfalse⟩
        · rintro ⟨cell, hcell, hne, hfalse⟩
          obtain rfl : csCell = cell := by
            rw [hcs] at hcell
            injection hcell
          exact ⟨by rw [← hcsid]; exact hne, by rw [hobs_eq]; exact hfalse⟩
      · have hnm : p' ∉ p :: l := by
          intro hh
          rcases List.mem_cons.mp hh with h | h
          · exact hpp h
          · exact hp' h
        rw [hother p' hpp]
        exact hdone p' hnm

theorem inv_update_loaded {c : Chunk} (h : Inv c) (b : Bool) : Inv { c with loaded := b } :=
  ⟨h.emptyNone, h.slot, h.dense⟩

theorem meshes_inv_vis (c0 cm : Chunk) (ids : Int × Int × Int → Nat)
    (hsz : cm.size = c0.size)
    (hpm : ∀ q, getB cm q =
      if inBounds c0 q.1 q.2.1 q.2.2 then some ⟨ids q, none⟩ else none) :
    Inv (generateMeshes cm) ∧
    ∀ p cell, getB (generateMeshes cm) p = some cell →
      (cell.instanceId.isSome = true ↔ (cell.id ≠ blocks.empty.id ∧
        isBlockObscured (generateMeshes cm) p.1 p.2.1 p.2.2 = false)) := by
  have hclear : ∀ q, getB (clearBatches cm) q = getB cm q := fun q => rfl
  have hbat : ∀ i, (((clearBatches cm).batches i).count) = 0 := fun i => rfl
  have hInv0 : Inv (clearBatches cm) := by
    refine ⟨?_, ?_, ?_⟩
    · intro p cell hcell _
      rw [hclear p, hpm p] at hcell
      by_cases hb : inBounds c0 p.1 p.2.1 p.2.2
      · rw [if_pos hb] at hcell
        obtain rfl : (⟨ids p, none⟩ : Cell) = cell := by injection hcell
        rfl
      · rw [if_neg hb] at hcell
        exact Option.noConfusion hcell
    · intro p cell k hcell hk
      rw [hclear p, hpm p] at hcell
      by_cases hb : inBounds c0 p.1 p.2.1 p.2.2
      · rw [if_pos hb] at hcell
        obtain rfl : (⟨ids p, none⟩ : Cell) = cell := by injection hcell
        exact Option.noConfusion hk
      · rw [if_neg hb] at hcell
        exact Option.noConfusion hcell
    · intro i k _ hk
      rw [hbat i] at hk
      exact absurd hk (Nat.not_lt_zero k)
  have hcssz : (clearBatches cm).size = c0.size := hsz
  have hscan : scanList (clearBatches cm).size = scanList c0.size := by rw [hcssz]
  obtain ⟨hI, hids, hvis⟩ := meshFold_inv (clearBatches cm)
    (scanList (clearBatches cm).size) (clearBatches cm)
    (by rw [hscan]; exact nodup_scanList _)
    (fun q => rfl)
    hInv0
    (by
      intro p hp
      rw [hscan] at hp
      have hb : inBounds c0 p.1 p.2.1 p.2.2 = true := mem_scanList_iff_inBounds.mp hp
      refine ⟨⟨ids p, none⟩, ?_, rfl⟩
      rw [hclear p, hpm p, if_pos hb])
    (by
      intro p hp
      rw [hscan] at hp
      have hb : ¬ inBounds c0 p.1 p.2.1 p.2.2 = true :=
        fun hh => hp (mem_scanList_iff_inBounds.mpr hh)
      have hnone : getB (clearBatches cm) p = none := by
        rw [hclear p, hpm p, if_neg hb]
      constructor
      · rintro ⟨cell, k, hcell, -⟩
        rw [hnone] at hcell
        exact Option.noConfusion hcell
      · rintro ⟨cell, hcell, -, -⟩
        rw [hnone] at hcell
        exact Option.noConfusion hcell)
  have hfold : generateMeshes cm =
      (scanList (clearBatches cm).size).foldl meshStep (clearBatches cm) := rfl
  rw [hfold]
  refine ⟨hI, fun p cell hcell => ?_⟩
  have hobs_eq : ∀ x y z,
      isBlockObscured ((scanList (clearBatches cm).size).foldl meshStep (clearBatches cm))
        x y z = isBlockObscured (clearBatches cm) x y z :=
    fun x y z => isBlockObscured_congr (fun x y z => hids (x, y, z)) x y z
  constructor
  · intro hsome
    obtain ⟨k, hk⟩ := Option.isSome_iff_exists.mp hsome
    obtain ⟨cellS, hcs, hne, hfalse⟩ := (hvis p).mp ⟨cell, k, hcell, hk⟩
    have hideq : cell.id = cellS.id := by
      have h := hids p
      rw [hcell, hcs] at h
      injection h
    exact ⟨by rw [hideq]; exact hne, by rw [hobs_eq p.1 p.2.1 p.2.2]; exact hfalse⟩
  · rintro ⟨hne, hfalse⟩
    have hmap : (getB (clearBatches cm) p).map Cell.id = some cell.id := by
      rw [← hids p, hcell]
      rfl
    obtain ⟨cellS, hcs, hcsid⟩ := Option.map_eq_some'.mp hmap
    obtain ⟨cell', k, hcell'', hk⟩ := (hvis p).mpr ⟨cellS, hcs,
      by rw [hcsid]; exact hne,
      by rw [← hobs_eq p.1 p.2.1 p.2.2]; exact hfalse⟩
    obtain rfl : cell = cell' := by
      rw [hcell] at hcell''
      injection hcell''
    rw [hk]
    rfl

theorem generate_eq_update (cfg : Config) (c : Chunk) :
    generate cfg c = { generateMeshes (loadPlayerChanges (generateTerrain cfg
      (generateResources cfg (initializeTerrain c)))) with loaded := true } := rfl

theorem getB_generate (cfg : Config) (c : Chunk) (q : Int × Int × Int) :
    getB (generate cfg c) q = getB (generateMeshes (loadPlayerChanges (generateTerrain cfg
      (generateResources cfg (initializeTerrain c))))) q := by
  rw [generate_eq_update]
  exact getB_update_loaded _ true q

theorem batches_generate (cfg : Config) (c : Chunk) :
    (generate cfg c).batches = (generateMeshes (loadPlayerChanges (generateTerrain cfg
      (generateResources cfg (initializeTerrain c))))).batches := by
  rw [generate_eq_update]

theorem generate_inv_vis (cfg : Config) (c : Chunk) :
    Inv (generate cfg c) ∧
    ∀ p cell, getB (generate cfg c) p = some cell →
      (cell.instanceId.isSome = true ↔ (cell.id ≠ blocks.empty.id ∧
        isBlockObscured (generate cfg c) p.1 p.2.1 p.2.2 = false)) := by
  have hsz : (loadPlayerChanges (generateTerrain cfg
      (generateResources cfg (initializeTerrain c)))).size = c.size :=
    ((loadPlayerChanges_char c _ ((generateTerrain_char cfg c _
      ((generateResources_char cfg c _ (initializeTerrain_sameStatic c)).1)).1)).1).1
  obtain ⟨hI, hvis⟩ := meshes_inv_vis c _ (fun q => overlaidIdAt cfg c q) hsz
    (preMesh_char cfg c)
  have hobs2 : ∀ x y z, isBlockObscured (generate cfg c) x y z =
      isBlockObscured (generateMeshes (loadPlayerChanges (generateTerrain cfg
        (generateResources cfg (initializeTerrain c))))) x y z :=
    fun x y z => isBlockObscured_congr
      (fun a b d => congrArg (Option.map Cell.id) (getB_generate cfg c (a, b, d))) x y z
  constructor
  · exact inv_update_loaded hI true
  · intro p cell hcell
    rw [getB_generate cfg c p] at hcell
    refine (hvis p cell hcell).trans ?_
    rw [hobs2 p.1 p.2.1 p.2.2]

/-! ### The incremental updates preserve the render invariant -/

theorem inv_congr {c r : Chunk} (hInv : Inv c) (hget : ∀ q, getB r q = getB c q)
    (hbat : r.batches = c.batches) : Inv r := by
  refine ⟨?_, ?_, ?_⟩
  · intro p cell hcell hcid
    exact hInv.emptyNone p cell (by rw [← hget p]; exact hcell) hcid
  · intro p cell k hcell hk
    rw [hbat]
    exact hInv.slot p cell k (by rw [← hget p]; exact hcell) hk
  · intro i k hi hk
    rw [hbat] at hk ⊢
    obtain ⟨cell, hcell, hcid, hinst⟩ := hInv.dense i k hi hk
    exact ⟨cell, by rw [hget]; exact hcell, hcid, hinst⟩

/-- The invariant survives appending one fresh instance at the end of the
batch of a previously instance-free non-empty cell. -/
theorem append_inv {c r : Chunk} {p : Int × Int × Int} {cf : Cell}
    (hInv : Inv c) (hcf : getB c p = some cf) (hfi : cf.instanceId = none)
    (hid : cf.id ≠ blocks.empty.id)
    (hr_p : getB r p = some ⟨cf.id, some (c.batches cf.id).count⟩)
    (hr_o : ∀ q, q ≠ p → getB r q = getB c q)
    (hBc : r.batches cf.id = ⟨(c.batches cf.id).count + 1,
      fun k => if k = (c.batches cf.id).count then p else (c.batches cf.id).mats k⟩)
    (hBo : ∀ j, j ≠ cf.id → r.batches j = c.batches j) : Inv r := by
  refine ⟨?_, ?_, ?_⟩
  · intro q cell hcell hcid
    by_cases hq : q = p
    · subst hq
      rw [hr_p] at hcell
      obtain rfl : (⟨cf.id, some (c.batches cf.id).count⟩ : Cell) = cell := by injection hcell
      exact absurd hcid hid
    · exact hInv.emptyNone q cell (by rw [← hr_o q hq]; exact hcell) hcid
  · intro q cell k hcell hk
    by_cases hq : q = p
    · subst hq
      rw [hr_p] at hcell
      obtain rfl : (⟨cf.id, some (c.batches cf.id).count⟩ : Cell) = cell := by injection hcell
      obtain rfl : (c.batches cf.id).count = k := by injection hk
      dsimp only
      rw [hBc]
      exact ⟨Nat.lt_succ_self _, if_pos rfl⟩
    · have hcq : getB c q = some cell := by rw [← hr_o q hq]; exact hcell
      obtain ⟨hk1, hk2⟩ := hInv.slot q cell k hcq hk
      by_cases hcid : cell.id = cf.id
      · rw [hcid] at hk1 hk2 ⊢
        rw [hBc]
        have hkn : k ≠ (c.batches cf.id).count := by omega
        refine ⟨?_, ?_⟩
        · show k < (c.batches cf.id).count + 1
          omega
        · show (if k = (c.batches cf.id).count then p else (c.batches cf.id).mats k) = q
          rw [if_neg hkn]
          exact hk2
      · rw [hBo cell.id hcid]
        exact ⟨hk1, hk2⟩
  · intro j k hj hk
    by_cases hjc : j = cf.id
    · subst hjc
      rw [hBc] at hk ⊢
      dsimp only at hk ⊢
      by_cases hkn : k = (c.batches cf.id).count
      · subst hkn
        rw [if_pos rfl]
        exact ⟨⟨cf.id, some (c.batches cf.id).count⟩, hr_p, rfl, rfl⟩
      · rw [if_neg hkn]
        have hklt : k < (c.batches cf.id).count := by omega
        obtain ⟨cell, hcell, hcid, hcinst⟩ := hInv.dense cf.id k hj hklt
        have hw : (c.batches cf.id).mats k ≠ p := by
          intro hwp
          rw [hwp, hcf] at hcell
          obtain rfl : cell = cf := by injection hcell with h; exact h.symm
          rw [hfi] at hcinst
          exact Option.noConfusion hcinst
        exact ⟨cell, by rw [hr_o _ hw]; exact hcell, hcid, hcinst⟩
    · rw [hBo j hjc] at hk ⊢
      obtain ⟨cell, hcell, hcid, hcinst⟩ := hInv.dense j k hj hk
      have hw : (c.batches j).mats k ≠ p := by
        intro hwp
        rw [hwp, hcf] at hcell
        obtain rfl : cell = cf := by injection hcell with h; exact h.symm
        exact hjc (hcid.symm ▸ rfl)
      exact ⟨cell, by rw [hr_o _ hw]; exact hcell, hcid, hcinst⟩

theorem addBlockInstance_effect {c : Chunk} {x y z : Int} {cf : Cell}
    (hgb : getBlock c x y z = some cf) (hid : cf.id ≠ blocks.empty.id)
    (hfi : cf.instanceId = none) :
    getBlock (addBlockInstance c x y z) x y z =
      some ⟨cf.id, some (c.batches cf.id).count⟩ ∧
    (∀ q : Int × Int × Int, q ≠ (x, y, z) → getB (addBlockInstance c x y z) q = getB c q) ∧
    (addBlockInstance c x y z).batches cf.id =
      ⟨(c.batches cf.id).count + 1,
        fun k => if k = (c.batches cf.id).count then (x, y, z)
          else (c.batches cf.id).mats k⟩ ∧
    (∀ j, j ≠ cf.id → (addBlockInstance c x y z).batches j = c.batches j) ∧
    (addBlockInstance c x y z).dataStore = c.dataStore ∧
    (addBlockInstance c x y z).posX = c.posX ∧
    (addBlockInstance c x y z).posZ = c.posZ := by
  unfold addBlockInstance
  rw [hgb]
  dsimp only
  rw [if_pos ⟨hid, hfi⟩]
  refine ⟨?_, ?_, ?_, ?_, ?_, ?_, ?_⟩
  · show getB _ (x, y, z) = _
    rw [getB_setBlockInstanceIdXYZ_s, getB_update_batches]
    show ((getBlock c x y z).map _) = _
    rw [hgb]
    rfl
  · intro q hq
    rw [getB_setBlockInstanceIdXYZ_o hq, getB_update_batches]
  · rw [setBlockInstanceId_batches]
    exact if_pos rfl
  · intro j hj
    rw [setBlockInstanceId_batches]
    exact if_neg hj
  · rw [setBlockInstanceId_dataStore]
  · rw [setBlockInstanceId_posX]
  · rw [setBlockInstanceId_posZ]

theorem inv_setBlockId_fresh {c : Chunk} {x y z : Int} {cf : Cell} (hInv : Inv c)
    (hgb : getBlock c x y z = some cf) (hfi : cf.instanceId = none) (i : Nat) :
    Inv (setBlockId c x y z i) := by
  have hself : getB (setBlockId c x y z i) (x, y, z) = some ⟨i, none⟩ := by
    rw [getB_setBlockIdXYZ_s]
    show ((getBlock c x y z).map _) = _
    rw [hgb, Option.map_some', hfi]
  have hother : ∀ q, q ≠ (x, y, z) → getB (setBlockId c x y z i) q = getB c q :=
    fun q hq => getB_setBlockIdXYZ_o hq
  refine ⟨?_, ?_, ?_⟩
  · intro q cell hcell _
    by_cases hq : q = (x, y, z)
    · subst hq
      rw [hself] at hcell
      obtain rfl : (⟨i, none⟩ : Cell) = cell := by injection hcell
      rfl
    · exact hInv.emptyNone q cell (by rw [← hother q hq]; exact hcell) (by assumption)
  · intro q cell k hcell hk
    rw [setBlockId_batches]
    by_cases hq : q = (x, y, z)
    · subst hq
      rw [hself] at hcell
      obtain rfl : (⟨i, none⟩ : Cell) = cell := by injection hcell
      exact Option.noConfusion hk
    · exact hInv.slot q cell k (by rw [← hother q hq]; exact hcell) hk
  · intro j k hj hk
    rw [setBlockId_batches] at hk ⊢
    obtain ⟨cell, hcell, hcid, hcinst⟩ := hInv.dense j k hj hk
    have hw : (c.batches j).mats k ≠ (x, y, z) := by
      intro hwp
      rw [hwp] at hcell
      have : getB c (x, y, z) = some cf := hgb
      rw [this] at hcell
      obtain rfl : cell = cf := by injection hcell with h; exact h.symm
      rw [hfi] at hcinst
      exact Option.noConfusion hcinst
    exact ⟨cell, by rw [hother _ hw]; exact hcell, hcid, hcinst⟩

theorem getB_update_dataStore (c : Chunk) (s : Store) (q : Int × Int × Int) :
    getB { c with dataStore := s } q = getB c q := rfl

theorem inv_update_dataStore {c : Chunk} (hInv : Inv c) (s : Store) :
    Inv { c with dataStore := s } :=
  ⟨hInv.emptyNone, hInv.slot, hInv.dense⟩

theorem addBlock_effect {c : Chunk} {x y z : Int} {cf : Cell} (hInv : Inv c)
    (hgb : getBlock c x y z = some cf) (hid : cf.id = blocks.empty.id)
    {bid : Nat} (hbid : bid ≠ blocks.empty.id) :
    getBlock (addBlock c x y z bid) x y z = some ⟨bid, some (c.batches bid).count⟩ ∧
    (∀ q : Int × Int × Int, q ≠ (x, y, z) → getB (addBlock c x y z bid) q = getB c q) ∧
    (addBlock c x y z bid).batches bid =
      ⟨(c.batches bid).count + 1,
        fun k => if k = (c.batches bid).count then (x, y, z) else (c.batches bid).mats k⟩ ∧
    (∀ j, j ≠ bid → (addBlock c x y z bid).batches j = c.batches j) ∧
    (addBlock c x y z bid).dataStore = c.dataStore.set c.posX c.posZ x y z bid ∧
    Inv (addBlock c x y z bid) := by
  have hfi : cf.instanceId = none := hInv.emptyNone (x, y, z) cf hgb hid
  have hc1 : getBlock (setBlockId c x y z bid) x y z = some ⟨bid, none⟩ := by
    show getB _ (x, y, z) = _
    rw [getB_setBlockIdXYZ_s]
    show ((getBlock c x y z).map _) = _
    rw [hgb, Option.map_some', hfi]
  obtain ⟨he1, he2, he3, he4, he5, he6, he7⟩ :=
    addBlockInstance_effect hc1 (show (⟨bid, none⟩ : Cell).id ≠ blocks.empty.id from hbid)
      (show (⟨bid, none⟩ : Cell).instanceId = none from rfl)
  have hInv1 : Inv (setBlockId c x y z bid) := inv_setBlockId_fresh hInv hgb hfi bid
  have hInv2 : Inv (addBlockInstance (setBlockId c x y z bid) x y z) := by
    refine append_inv hInv1 (show getB _ (x, y, z) = some (⟨bid, none⟩ : Cell) from hc1)
      rfl hbid ?_ he2 ?_ he4
    · rw [setBlockId_batches] at he1 ⊢
      exact he1
    · rw [setBlockId_batches] at he3 ⊢
      exact he3
  unfold addBlock
  rw [hgb]
  dsimp only
  rw [if_pos hid]
  refine ⟨?_, ?_, ?_, ?_, ?_, ?_⟩
  · show getB _ (x, y, z) = _
    rw [getB_update_dataStore]
    rw [setBlockId_batches] at he1
    exact he1
  · intro q hq
    rw [getB_update_dataStore, he2 q hq, getB_setBlockIdXYZ_o hq]
  · show (addBlockInstance (setBlockId c x y z bid) x y z).batches bid = _
    rw [setBlockId_batches] at he3
    exact he3
  · intro j hj
    show (addBlockInstance (setBlockId c x y z bid) x y z).batches j = _
    rw [he4 j hj, setBlockId_batches]
  · show (addBlockInstance (setBlockId c x y z bid) x y z).dataStore.set
      ((addBlockInstance (setBlockId c x y z bid) x y z).posX)
      ((addBlockInstance (setBlockId c x y z bid) x y z).posZ) x y z bid = _
    rw [he5, he6, he7, setBlockId_dataStore, setBlockId_posX, setBlockId_posZ]
  · exact inv_update_dataStore hInv2 _

/-! ### The no-op paths of addBlock and removeBlock -/

theorem addBlock_noop_oob {c : Chunk} {x y z : Int} (h : getBlock c x y z = none)
    (bid : Nat) : addBlock c x y z bid = c := by
  unfold addBlock
  rw [h]

theorem addBlock_noop_occupied {c : Chunk} {x y z : Int} {cf : Cell}
    (hgb : getBlock c x y z = some cf) (hid : cf.id ≠ blocks.empty.id) (bid : Nat) :
    addBlock c x y z bid = c := by
  unfold addBlock
  rw [hgb]
  dsimp only
  rw [if_neg hid]

theorem removeBlock_noop_oob {c : Chunk} {x y z : Int} (h : getBlock c x y z = none) :
    removeBlock c x y z = c := by
  unfold removeBlock
  rw [h]

theorem removeBlock_noop_empty {c : Chunk} {x y z : Int} {cf : Cell}
    (hgb : getBlock c x y z = some cf) (hid : cf.id = blocks.empty.id) :
    removeBlock c x y z = c := by
  unfold removeBlock
  rw [hgb]
  dsimp only
  rw [if_neg (show ¬ cf.id ≠ blocks.empty.id from fun hh => hh hid)]

theorem addBlock_emptyId_effect {c : Chunk} {x y z : Int} {cf : Cell}
    (hgb : getBlock c x y z = some cf) (hid : cf.id = blocks.empty.id) :
    (∀ q, getB (addBlock c x y z blocks.empty.id) q = getB c q) ∧
    (addBlock c x y z blocks.empty.id).batches = c.batches ∧
    (addBlock c x y z blocks.empty.id).dataStore =
      c.dataStore.set c.posX c.posZ x y z blocks.empty.id := by
  have hc1 : getBlock (setBlockId c x y z blocks.empty.id) x y z =
      some ⟨blocks.empty.id, cf.instanceId⟩ := by
    show getB _ (x, y, z) = _
    rw [getB_setBlockIdXYZ_s]
    show ((getBlock c x y z).map _) = _
    rw [hgb, Option.map_some']
  have habi : addBlockInstance (setBlockId c x y z blocks.empty.id) x y z =
      setBlockId c x y z blocks.empty.id := by
    unfold addBlockInstance
    rw [hc1]
    dsimp only
    rw [if_neg (by rintro ⟨h1, -⟩; exact h1 rfl)]
  unfold addBlock
  rw [hgb]
  dsimp only
  rw [if_pos hid, habi]
  refine ⟨?_, ?_, ?_⟩
  · intro q
    rw [getB_update_dataStore]
    by_cases hq : q = (x, y, z)
    · subst hq
      show getB _ (x, y, z) = _
      rw [getB_setBlockIdXYZ_s]
      show ((getBlock c x y z).map _) = getBlock c x y z
      rw [hgb, Option.map_some']
      exact congrArg some (cell_ext (show blocks.empty.id = cf.id from hid.symm) rfl)
    · rw [getB_setBlockIdXYZ_o hq]
  · show (setBlockId c x y z blocks.empty.id).batches = c.batches
    rw [setBlockId_batches]
  · show (setBlockId c x y z blocks.empty.id).dataStore.set
      ((setBlockId c x y z blocks.empty.id).posX)
      ((setBlockId c x y z blocks.empty.id).posZ) x y z blocks.empty.id = _
    rw [setBlockId_dataStore, setBlockId_posX, setBlockId_posZ]

/-! ### Swap-with-last removal -/

theorem deleteBlockInstance_effect {c : Chunk} {x y z : Int} {cf : Cell} {i : Nat}
    (hInv : Inv c) (hgb : getBlock c x y z = some cf) (hid : cf.id ≠ blocks.empty.id)
    (hii : cf.instanceId = some i) :
    getBlock (deleteBlockInstance c x y z) x y z = some ⟨cf.id, none⟩ ∧
    (deleteBlockInstance c x y z).batches cf.id =
      ⟨(c.batches cf.id).count - 1,
        fun k => if k = i then (c.batches cf.id).mats ((c.batches cf.id).count - 1)
          else (c.batches cf.id).mats k⟩ ∧
    (∀ j, j ≠ cf.id → (deleteBlockInstance c x y z).batches j = c.batches j) ∧
    (deleteBlockInstance c x y z).dataStore = c.dataStore ∧
    (deleteBlockInstance c x y z).posX = c.posX ∧
    (deleteBlockInstance c x y z).posZ = c.posZ ∧
    (i = (c.batches cf.id).count - 1 →
      ∀ q : Int × Int × Int, q ≠ (x, y, z) →
        getB (deleteBlockInstance c x y z) q = getB c q) ∧
    (i ≠ (c.batches cf.id).count - 1 →
      (c.batches cf.id).mats ((c.batches cf.id).count - 1) ≠ (x, y, z) ∧
      getB (deleteBlockInstance c x y z)
        ((c.batches cf.id).mats ((c.batches cf.id).count - 1)) = some ⟨cf.id, some i⟩ ∧
      (∀ q : Int × Int × Int, q ≠ (x, y, z) →
        q ≠ (c.batches cf.id).mats ((c.batches cf.id).count - 1) →
        getB (deleteBlockInstance c x y z) q = getB c q)) := by
  obtain ⟨hin, hmats⟩ := hInv.slot (x, y, z) cf i hgb hii
  unfold deleteBlockInstance
  rw [hgb]
  dsimp only
  rw [hii]
  dsimp only
  generalize hLdef : (c.batches cf.id).mats ((c.batches cf.id).count - 1) = L
  have hS1_o : ∀ q, q ≠ L →
      getB (setBlockInstanceId c L.1 L.2.1 L.2.2 (some i)) q = getB c q :=
    fun q hq => getB_setBlockInstanceId_o hq
  have hS1_L : getB (setBlockInstanceId c L.1 L.2.1 L.2.2 (some i)) L =
      (getB c L).map fun cell => { cell with instanceId := some i } :=
    getB_setBlockInstanceId_s c L (some i)
  have hS1_get : ∀ q, getB { setBlockInstanceId c L.1 L.2.1 L.2.2 (some i) with
      batches := fun j => if j = cf.id then
        ⟨(c.batches cf.id).count - 1, fun k => if k = i then L else (c.batches cf.id).mats k⟩
        else (setBlockInstanceId c L.1 L.2.1 L.2.2 (some i)).batches j } q =
      getB (setBlockInstanceId c L.1 L.2.1 L.2.2 (some i)) q :=
    getB_update_batches _ _
  have hself : getB (setBlockInstanceId { setBlockInstanceId c L.1 L.2.1 L.2.2 (some i) with
      batches := fun j => if j = cf.id then
        ⟨(c.batches cf.id).count - 1, fun k => if k = i then L else (c.batches cf.id).mats k⟩
        else (setBlockInstanceId c L.1 L.2.1 L.2.2 (some i)).batches j } x y z none) (x, y, z) =
      some ⟨cf.id, none⟩ := by
    rw [getB_setBlockInstanceIdXYZ_s, hS1_get]
    by_cases hxyL : ((x, y, z) : Int × Int × Int) = L
    · rw [hxyL, hS1_L]
      rw [show getB c L = some cf from hxyL ▸ hgb]
      rfl
    · rw [hS1_o _ hxyL]
      rw [show getB c (x, y, z) = some cf from hgb]
      rfl
  have hother : ∀ q, q ≠ (x, y, z) → q ≠ L →
      getB (setBlockInstanceId { setBlockInstanceId c L.1 L.2.1 L.2.2 (some i) with
        batches := fun j => if j = cf.id then
          ⟨(c.batches cf.id).count - 1, fun k => if k = i then L else (c.batches cf.id).mats k⟩
          else (setBlockInstanceId c L.1 L.2.1 L.2.2 (some i)).batches j } x y z none) q =
      getB c q := by
    intro q hq hqL
    rw [getB_setBlockInstanceIdXYZ_o hq, hS1_get, hS1_o q hqL]
  refine ⟨hself, ?_, ?_, ?_, ?_, ?_, ?_, ?_⟩
  · rw [setBlockInstanceId_batches]
    exact if_pos rfl
  · intro j hj
    rw [setBlockInstanceId_batches]
    show (if j = cf.id then _ else _) = _
    rw [if_neg hj, setBlockInstanceId_batches]
  · rw [setBlockInstanceId_dataStore]
    show (setBlockInstanceId c L.1 L.2.1 L.2.2 (some i)).dataStore = _
    rw [setBlockInstanceId_dataStore]
  · rw [setBlockInstanceId_posX]
    show (setBlockInstanceId c L.1 L.2.1 L.2.2 (some i)).posX = _
    rw [setBlockInstanceId_posX]
  · rw [setBlockInstanceId_posZ]
    show (setBlockInstanceId c L.1 L.2.1 L.2.2 (some i)).posZ = _
    rw [setBlockInstanceId_posZ]
  · intro hieq q hq
    have hLxy : L = (x, y, z) := by
      rw [← hLdef, ← hieq]
      exact hmats
    exact hother q hq (by rw [hLxy]; exact hq)
  · intro hine
    have hLne : L ≠ (x, y, z) := by
      intro hLxy
      have hm1 : (c.batches cf.id).count - 1 < (c.batches cf.id).count := by omega
      obtain ⟨cellq, hcellq, hcqid, hcqinst⟩ :=
        hInv.dense cf.id ((c.batches cf.id).count - 1) hid hm1
      rw [hLdef, hLxy] at hcellq
      rw [show getB c (x, y, z) = some cf from hgb] at hcellq
      have hcfq : cf = cellq := by injection hcellq
      rw [← hcfq, hii] at hcqinst
      have h2 : i = (c.batches cf.id).count - 1 := by injection hcqinst
      exact hine h2
    have hm1 : (c.batches cf.id).count - 1 < (c.batches cf.id).count := by omega
    obtain ⟨cellq, hcellq, hcqid, hcqinst⟩ :=
      hInv.dense cf.id ((c.batches cf.id).count - 1) hid hm1
    rw [hLdef] at hcellq
    refine ⟨hLne, ?_, fun q hq hqL => hother q hq hqL⟩
    rw [getB_setBlockInstanceIdXYZ_o hLne, hS1_get, hS1_L, hcellq, Option.map_some']
    exact congrArg some (cell_ext (by rw [hcqid]) rfl)

theorem deleteBlockInstance_noop {c : Chunk} {x y z : Int} {cf : Cell}
    (hgb : getBlock c x y z = some cf) (hni : cf.instanceId = none) :
    deleteBlockInstance c x y z = c := by
  unfold deleteBlockInstance
  rw [hgb]
  dsimp only
  rw [hni]

theorem removeBlock_effect {c : Chunk} {x y z : Int} {cf : Cell} (hInv : Inv c)
    (hgb : getBlock c x y z = some cf) (hid : cf.id ≠ blocks.empty.id) :
    getBlock (removeBlock c x y z) x y z = some ⟨blocks.empty.id, none⟩ ∧
    (removeBlock c x y z).dataStore = c.dataStore.set c.posX c.posZ x y z blocks.empty.id ∧
    (cf.instanceId = none →
      ((∀ q : Int × Int × Int, q ≠ (x, y, z) → getB (removeBlock c x y z) q = getB c q) ∧
        (removeBlock c x y z).batches = c.batches)) ∧
    (∀ i, cf.instanceId = some i →
      ((removeBlock c x y z).batches cf.id =
        ⟨(c.batches cf.id).count - 1,
          fun k => if k = i then (c.batches cf.id).mats ((c.batches cf.id).count - 1)
            else (c.batches cf.id).mats k⟩ ∧
      (∀ j, j ≠ cf.id → (removeBlock c x y z).batches j = c.batches j) ∧
      (i = (c.batches cf.id).count - 1 →
        ∀ q : Int × Int × Int, q ≠ (x, y, z) → getB (removeBlock c x y z) q = getB c q) ∧
      (i ≠ (c.batches cf.id).count - 1 →
        (c.batches cf.id).mats ((c.batches cf.id).count - 1) ≠ (x, y, z) ∧
        getB (removeBlock c x y z) ((c.batches cf.id).mats ((c.batches cf.id).count - 1)) =
          some ⟨cf.id, some i⟩ ∧
        (∀ q : Int × Int × Int, q ≠ (x, y, z) →
          q ≠ (c.batches cf.id).mats ((c.batches cf.id).count - 1) →
          getB (removeBlock c x y z) q = getB c q)))) := by
  unfold removeBlock
  rw [hgb]
  dsimp only
  rw [if_pos hid]
  rcases hci : cf.instanceId with _ | i
  · have hD : deleteBlockInstance c x y z = c := deleteBlockInstance_noop hgb hci
    rw [hD]
    refine ⟨?_, ?_, ?_, ?_⟩
    · show getB _ (x, y, z) = _
      rw [getB_update_dataStore, getB_setBlockIdXYZ_s]
      show ((getBlock c x y z).map _) = _
      rw [hgb, Option.map_some']
      exact congrArg some (cell_ext rfl hci)
    · show (setBlockId c x y z blocks.empty.id).dataStore.set
        ((setBlockId c x y z blocks.empty.id).posX)
        ((setBlockId c x y z blocks.empty.id).posZ) x y z blocks.empty.id = _
      rw [setBlockId_dataStore, setBlockId_posX, setBlockId_posZ]
    · intro _
      refine ⟨fun q hq => ?_, ?_⟩
      · rw [getB_update_dataStore, getB_setBlockIdXYZ_o hq]
      · show (setBlockId c x y z blocks.empty.id).batches = c.batches
        rw [setBlockId_batches]
    · intro i hcontra
      exact Option.noConfusion hcontra
  · obtain ⟨hd1, hd2, hd3, hd4, hd5, hd6, hd7, hd8⟩ :=
      deleteBlockInstance_effect hInv hgb hid hci
    refine ⟨?_, ?_, ?_, ?_⟩
    · show getB _ (x, y, z) = _
      rw [getB_update_dataStore, getB_setBlockIdXYZ_s,
        show getB (deleteBlockInstance c x y z) (x, y, z) = some ⟨cf.id, none⟩ from hd1,
        Option.map_some']
    · show (setBlockId (deleteBlockInstance c x y z) x y z blocks.empty.id).dataStore.set
        ((setBlockId (deleteBlockInstance c x y z) x y z blocks.empty.id).posX)
        ((setBlockId (deleteBlockInstance c x y z) x y z blocks.empty.id).posZ)
        x y z blocks.empty.id = _
      rw [setBlockId_dataStore, setBlockId_posX, setBlockId_posZ, hd4, hd5, hd6]
    · intro hcontra
      exact Option.noConfusion hcontra
    · intro i' hii'
      obtain rfl : i = i' := by injection hii'
      refine ⟨?_, ?_, ?_, ?_⟩
      · show (setBlockId (deleteBlockInstance c x y z) x y z blocks.empty.id).batches cf.id = _
        rw [setBlockId_batches]
        exact hd2
      · intro j hj
        show (setBlockId (deleteBlockInstance c x y z) x y z blocks.empty.id).batches j = _
        rw [setBlockId_batches]
        exact hd3 j hj
      · intro hieq q hq
        rw [getB_update_dataStore, getB_setBlockIdXYZ_o hq]
        exact hd7 hieq q hq
      · intro hine
        obtain ⟨hLne, hLget, hoth⟩ := hd8 hine
        refine ⟨hLne, ?_, fun q hq hqL => ?_⟩
        · rw [getB_update_dataStore, getB_setBlockIdXYZ_o hLne]
          exact hLget
        · rw [getB_update_dataStore, getB_setBlockIdXYZ_o hq]
          exact hoth q hq hqL

theorem inv_removeBlock {c : Chunk} (hInv : Inv c) (x y z : Int) :
    Inv (removeBlock c x y z) := by
  rcases hgb : getBlock c x y z with _ | cf
  · rw [removeBlock_noop_oob hgb]
    exact hInv
  · by_cases hid : cf.id = blocks.empty.id
    · rw [removeBlock_noop_empty hgb hid]
      exact hInv
    · obtain ⟨hr1, hr2, hr3, hr4⟩ := removeBlock_effect hInv hgb hid
      have hr1' : getB (removeBlock c x y z) (x, y, z) = some ⟨blocks.empty.id, none⟩ := hr1
      rcases hci : cf.instanceId with _ | i
      · obtain ⟨hro, hrb⟩ := hr3 hci
        refine ⟨?_, ?_, ?_⟩
        · intro q cell hcell _
          by_cases hq : q = (x, y, z)
          · subst hq
            rw [hr1'] at hcell
            obtain rfl : (⟨blocks.empty.id, none⟩ : Cell) = cell := by injection hcell
            rfl
          · exact hInv.emptyNone q cell (by rw [← hro q hq]; exact hcell) (by assumption)
        · intro q cell k hcell hk
          rw [hrb]
          by_cases hq : q = (x, y, z)
          · subst hq
            rw [hr1'] at hcell
            obtain rfl : (⟨blocks.empty.id, none⟩ : Cell) = cell := by injection hcell
            exact Option.noConfusion hk
          · exact hInv.slot q cell k (by rw [← hro q hq]; exact hcell) hk
        · intro j k hj hk
          rw [hrb] at hk ⊢
          obtain ⟨cell, hcell, hcid, hcinst⟩ := hInv.dense j k hj hk
          have hw : (c.batches j).mats k ≠ (x, y, z) := by
            intro hwp
            rw [hwp, show getB c (x, y, z) = some cf from hgb] at hcell
            obtain rfl : cell = cf := by injection hcell with h; exact h.symm
            rw [hci] at hcinst
            exact Option.noConfusion hcinst
          exact ⟨cell, by rw [hro _ hw]; exact hcell, hcid, hcinst⟩
      · obtain ⟨hb1, hb2, hb3, hb4⟩ := hr4 i hci
        obtain ⟨hin, hmats⟩ := hInv.slot (x, y, z) cf i hgb hci
        by_cases hieq : i = (c.batches cf.id).count - 1
        · have hro := hb3 hieq
          refine ⟨?_, ?_, ?_⟩
          · intro q cell hcell _
            by_cases hq : q = (x, y, z)
            · subst hq
              rw [hr1'] at hcell
              obtain rfl : (⟨blocks.empty.id, none⟩ : Cell) = cell := by injection hcell
              rfl
            · exact hInv.emptyNone q cell (by rw [← hro q hq]; exact hcell) (by assumption)
          · intro q cell k hcell hk
            by_cases hq : q = (x, y, z)
            · subst hq
              rw [hr1'] at hcell
              obtain rfl : (⟨blocks.empty.id, none⟩ : Cell) = cell := by injection hcell
              exact Option.noConfusion hk
            · have hcq : getB c q = some cell := by rw [← hro q hq]; exact hcell
              obtain ⟨hk1, hk2⟩ := hInv.slot q cell k hcq hk
              by_cases hcid : cell.id = cf.id
              · rw [hcid] at hk1 hk2 ⊢
                rw [hb1]
                have hkne : k ≠ i := by
                  intro hke
                  rw [hke, hmats] at hk2
                  exact hq hk2.symm
                refine ⟨?_, ?_⟩
                · show k < (c.batches cf.id).count - 1
                  omega
                · show (if k = i then _ else (c.batches cf.id).mats k) = q
                  rw [if_neg hkne]
                  exact hk2
              · rw [hb2 cell.id hcid]
                exact ⟨hk1, hk2⟩
          · intro j k hj hk
            by_cases hjc : j = cf.id
            · subst hjc
              rw [hb1] at hk ⊢
              dsimp only at hk ⊢
              have hkne : k ≠ i := by omega
              rw [if_neg hkne]
              have hklt : k < (c.batches cf.id).count := by omega
              obtain ⟨cell, hcell, hcid, hcinst⟩ := hInv.dense cf.id k hj hklt
              have hw : (c.batches cf.id).mats k ≠ (x, y, z) := by
                intro hwp
                rw [hwp, show getB c (x, y, z) = some cf from hgb] at hcell
                obtain rfl : cell = cf := by injection hcell with h; exact h.symm
                rw [hci] at hcinst
                have : i = k := by injection hcinst
                exact hkne this.symm
              exact ⟨cell, by rw [hro _ hw]; exact hcell, hcid, hcinst⟩
            · rw [hb2 j hjc] at hk ⊢
              obtain ⟨cell, hcell, hcid, hcinst⟩ := hInv.dense j k hj hk
              have hw : (c.batches j).mats k ≠ (x, y, z) := by
                intro hwp
                rw [hwp, show getB c (x, y, z) = some cf from hgb] at hcell
                obtain rfl : cell = cf := by injection hcell with h; exact h.symm
                exact hjc (hcid.symm ▸ rfl)
              exact ⟨cell, by rw [hro _ hw]; exact hcell, hcid, hcinst⟩
        · obtain ⟨hLne, hLget, hoth⟩ := hb4 hieq
          have hm1 : (c.batches cf.id).count - 1 < (c.batches cf.id).count := by omega
          obtain ⟨cellq, hcellq, hcqid, hcqinst⟩ := hInv.dense cf.id _ hid hm1
          refine ⟨?_, ?_, ?_⟩
          · intro q cell hcell hcid
            by_cases hq : q = (x, y, z)
            · subst hq
              rw [hr1'] at hcell
              obtain rfl : (⟨blocks.empty.id, none⟩ : Cell) = cell := by injection hcell
              rfl
            · by_cases hqL : q = (c.batches cf.id).mats ((c.batches cf.id).count - 1)
              · subst hqL
                rw [hLget] at hcell
                obtain rfl : (⟨cf.id, some i⟩ : Cell) = cell := by injection hcell
                exact absurd hcid hid
              · exact hInv.emptyNone q cell (by rw [← hoth q hq hqL]; exact hcell) hcid
          · intro q cell k hcell hk
            by_cases hq : q = (x, y, z)
            · subst hq
              rw [hr1'] at hcell
              obtain rfl : (⟨blocks.empty.id, none⟩ : Cell) = cell := by injection hcell
              exact Option.noConfusion hk
            · by_cases hqL : q = (c.batches cf.id).mats ((c.batches cf.id).count - 1)
              · subst hqL
                rw [hLget] at hcell
                obtain rfl : (⟨cf.id, some i⟩ : Cell) = cell := by injection hcell
                obtain rfl : i = k := by injection hk
                dsimp only
                rw [hb1]
                refine ⟨?_, ?_⟩
                · show i < (c.batches cf.id).count - 1
                  omega
                · show (if i = i then _ else _) = _
                  rw [if_pos rfl]
              · have hcq : getB c q = some cell := by rw [← hoth q hq hqL]; exact hcell
                obtain ⟨hk1, hk2⟩ := hInv.slot q cell k hcq hk
                by_cases hcid : cell.id = cf.id
                · rw [hcid] at hk1 hk2 ⊢
                  rw [hb1]
                  have hkne : k ≠ i := by
                    intro hke
                    rw [hke, hmats] at hk2
                    exact hq hk2.symm
                  have hkne2 : k ≠ (c.batches cf.id).count - 1 := by
                    intro hke
                    rw [hke] at hk2
                    exact hqL hk2.symm
                  refine ⟨?_, ?_⟩
                  · show k < (c.batches cf.id).count - 1
                    omega
                  · show (if k = i then _ else (c.batches cf.id).mats k) = q
                    rw [if_neg hkne]
                    exact hk2
                · rw [hb2 cell.id hcid]
                  exact ⟨hk1, hk2⟩
          · intro j k hj hk
            by_cases hjc : j = cf.id
            · subst hjc
              rw [hb1] at hk ⊢
              dsimp only at hk ⊢
              by_cases hki : k = i
              · subst hki
                rw [if_pos rfl]
                exact ⟨⟨cf.id, some k⟩, hLget, rfl, rfl⟩
              · rw [if_neg hki]
                have hklt : k < (c.batches cf.id).count := by omega
                obtain ⟨cell, hcell, hcid, hcinst⟩ := hInv.dense cf.id k hj hklt
                have hw : (c.batches cf.id).mats k ≠ (x, y, z) := by
                  intro hwp
                  rw [hwp, show getB c (x, y, z) = some cf from hgb] at hcell
                  obtain rfl : cell = cf := by injection hcell with h; exact h.symm
                  rw [hci] at hcinst
                  have : i = k := by injection hcinst
                  exact hki this.symm
                have hwL : (c.batches cf.id).mats k ≠
                    (c.batches cf.id).mats ((c.batches cf.id).count - 1) := by
                  intro hwp
                  rw [hwp, hcellq] at hcell
                  obtain rfl : cell = cellq := by injection hcell with h; exact h.symm
                  rw [hcqinst] at hcinst
                  have : (c.batches cf.id).count - 1 = k := by injection hcinst
                  omega
                exact ⟨cell, by rw [hoth _ hw hwL]; exact hcell, hcid, hcinst⟩
            · rw [hb2 j hjc] at hk ⊢
              obtain ⟨cell, hcell, hcid, hcinst⟩ := hInv.dense j k hj hk
              have hw : (c.batches j).mats k ≠ (x, y, z) := by
                intro hwp
                rw [hwp, show getB c (x, y, z) = some cf from hgb] at hcell
                obtain rfl : cell = cf := by injection hcell with h; exact h.symm
                exact hjc (hcid.symm ▸ rfl)
              have hwL : (c.batches j).mats k ≠
                  (c.batches cf.id).mats ((c.batches cf.id).count - 1) := by
                intro hwp
                rw [hwp, hcellq] at hcell
                obtain rfl : cell = cellq := by injection hcell with h; exact h.symm
                exact hjc (hcid.symm ▸ hcqid)
              exact ⟨cell, by rw [hoth _ hw hwL]; exact hcell, hcid, hcinst⟩

theorem inv_addBlock {c : Chunk} (hInv : Inv c) (x y z : Int) (bid : Nat) :
    Inv (addBlock c x y z bid) := by
  rcases hgb : getBlock c x y z with _ | cf
  · rw [addBlock_noop_oob hgb]
    exact hInv
  · by_cases hid : cf.id = blocks.empty.id
    · by_cases hbid : bid = blocks.empty.id
      · subst hbid
        obtain ⟨h1, h2, h3⟩ := addBlock_emptyId_effect hgb hid
        exact inv_congr hInv h1 h2
      · exact (addBlock_effect hInv hgb hid hbid).2.2.2.2.2
    · rw [addBlock_noop_occupied hgb hid]
      exact hInv

theorem mem_castRange {n : Nat} {x : Int} :
    x ∈ (Finset.range n).image (fun (i : Nat) => (i : Int)) ↔ 0 ≤ x ∧ x < (n : Int) := by
  constructor
  · intro h
    obtain ⟨i, hi, rfl⟩ := Finset.mem_image.mp h
    have := Finset.mem_range.mp hi
    omega
  · intro h
    refine Finset.mem_image.mpr ⟨x.toNat, Finset.mem_range.mpr ?_, ?_⟩
    · omega
    · omega

theorem mem_coordFinset {c : Chunk} {p : Int × Int × Int} :
    p ∈ coordFinset c ↔ InB c p := by
  obtain ⟨x, y, z⟩ := p
  unfold coordFinset InB inBounds
  rw [Finset.mem_product, Finset.mem_product]
  dsimp only
  rw [mem_castRange, mem_castRange, mem_castRange]
  simp only [Bool.and_eq_true, decide_eq_true_eq]
  tauto

theorem getB_some_inB {c : Chunk} {p : Int × Int × Int} {cell : Cell}
    (h : getB c p = some cell) : InB c p := by
  by_cases hb : inBounds c p.1 p.2.1 p.2.2 = true
  · exact hb
  · exfalso
    unfold getB getBlock at h
    rw [if_neg hb] at h
    exact Option.noConfusion h

theorem mem_visCells {c : Chunk} {i : Nat} {p : Int × Int × Int} :
    p ∈ visCells c i ↔ ∃ cell k, getB c p = some cell ∧ cell.id = i ∧
      cell.instanceId = some k := by
  unfold visCells
  rw [Finset.mem_filter, mem_coordFinset]
  constructor
  · rintro ⟨hin, hany⟩
    rcases hgb : getB c p with _ | cell
    · rw [hgb] at hany
      exact absurd hany (by simp [Option.any])
    · rw [hgb] at hany
      simp only [Option.any_some, Bool.and_eq_true, beq_iff_eq,
        Option.isSome_iff_exists] at hany
      obtain ⟨hid, k, hk⟩ := hany
      exact ⟨cell, k, rfl, hid, hk⟩
  · rintro ⟨cell, k, hcell, hid, hk⟩
    refine ⟨getB_some_inB hcell, ?_⟩
    rw [hcell]
    simp [Option.any_some, hid, hk]

/-- In an invariant state, the instanced count of each non-empty block type
equals the number of its cells that own a render instance. -/
theorem inv_card {c : Chunk} (hInv : Inv c) {i : Nat} (hi : i ≠ blocks.empty.id) :
    (visCells c i).card = (c.batches i).count := by
  refine Finset.card_eq_of_bijective (fun k _ => (c.batches i).mats k) ?_ ?_ ?_
  · intro p hp
    rw [mem_visCells] at hp
    obtain ⟨cell, k, hcell, hid, hk⟩ := hp
    obtain ⟨hlt, hm⟩ := hInv.slot p cell k hcell hk
    rw [hid] at hlt hm
    exact ⟨k, hlt, hm⟩
  · intro k hk
    obtain ⟨cell, hcell, hcid, hcinst⟩ := hInv.dense i k hi hk
    rw [mem_visCells]
    exact ⟨cell, k, hcell, hcid, hcinst⟩
  · intro k j hk hj heq
    obtain ⟨ck, hck, hckid, hckinst⟩ := hInv.dense i k hi hk
    obtain ⟨cj, hcj, hcjid, hcjinst⟩ := hInv.dense i j hi hj
    have heq' : (c.batches i).mats k = (c.batches i).mats j := heq
    rw [heq'] at hck
    rw [hck] at hcj
    obtain rfl : ck = cj := by injection hcj
    rw [hckinst] at hcjinst
    injection hcjinst

theorem inv_state (cfg : Config) (c : Chunk) (ops : List EditOp) :
    Inv (applyEdits (generate cfg c) ops) := by
  unfold applyEdits
  refine foldl_pres Inv applyEdit (fun c' op h => ?_) ops _ (generate_inv_vis cfg c).1
  cases op with
  | add x y z bid => exact inv_addBlock h x y z bid
  | remove x y z => exact inv_removeBlock h x y z

/-! ### Determinism of the generation pipeline -/

theorem resUpdId_congr (cfg : Config) (rs : List Resource) {c c' : Chunk}
    (h : SameStatic c c') (p : Int × Int × Int) (a : Nat) :
    resUpdId cfg rs c' p a = resUpdId cfg rs c p a := by
  unfold resUpdId
  have hf : (fun (a : Nat) (r : Resource) => if resCond cfg r c' p then r.id else a) =
      fun (a : Nat) (r : Resource) => if resCond cfg r c p then r.id else a :=
    funext fun a => funext fun r => if_congr (resCond_congr cfg r h p) rfl rfl
  rw [hf]

theorem generatedIdAt_congr (cfg : Config) {c c' : Chunk} (h : SameStatic c c')
    (p : Int × Int × Int) : generatedIdAt cfg c' p = generatedIdAt cfg c p := by
  unfold generatedIdAt resourceIdAt
  rw [terrainHeight_congr cfg h, resUpdId_congr cfg _ h]

theorem overlaidIdAt_congr (cfg : Config) {c c' : Chunk} (h : SameStatic c c')
    (p : Int × Int × Int) : overlaidIdAt cfg c' p = overlaidIdAt cfg c p := by
  unfold overlaidIdAt
  rw [h.2.2.1, h.2.2.2.2.1, h.2.2.2.2.2, generatedIdAt_congr cfg h]

theorem meshStep_congr {a b : Chunk} (hsz : a.size = b.size)
    (hget : ∀ q, getB a q = getB b q) (hbat : a.batches = b.batches)
    (p : Int × Int × Int) :
    (meshStep a p).size = (meshStep b p).size ∧
    (∀ q, getB (meshStep a p) q = getB (meshStep b p) q) ∧
    (meshStep a p).batches = (meshStep b p).batches := by
  have hgb : getBlock a p.1 p.2.1 p.2.2 = getBlock b p.1 p.2.1 p.2.2 := hget p
  unfold meshStep
  rw [hgb]
  rcases hg : getBlock b p.1 p.2.1 p.2.2 with _ | cell
  · exact ⟨hsz, hget, hbat⟩
  · dsimp only
    by_cases hce : cell.id = blocks.empty.id
    · rw [if_pos hce, if_pos hce]
      exact ⟨hsz, hget, hbat⟩
    · rw [if_neg hce, if_neg hce]
      have hobs : isBlockObscured a p.1 p.2.1 p.2.2 = isBlockObscured b p.1 p.2.1 p.2.2 :=
        isBlockObscured_congr
          (fun x y z => congrArg (Option.map Cell.id) (hget (x, y, z))) p.1 p.2.1 p.2.2
      rw [hobs, hbat]
      by_cases ho : isBlockObscured b p.1 p.2.1 p.2.2 = true
      · rw [if_pos ho, if_pos ho]
        exact ⟨hsz, hget, hbat⟩
      · rw [if_neg ho, if_neg ho]
        refine ⟨?_, ?_, ?_⟩
        · rw [setBlockInstanceId_size, setBlockInstanceId_size]
          exact hsz
        · intro q
          by_cases hq : q = (p.1, p.2.1, p.2.2)
          · subst hq
            rw [getB_setBlockInstanceIdXYZ_s, getB_setBlockInstanceIdXYZ_s,
              getB_update_batches, hget]
            exact congrArg _ (getB_update_batches b _ _).symm
          · rw [getB_setBlockInstanceIdXYZ_o hq, getB_setBlockInstanceIdXYZ_o hq,
              getB_update_batches, hget]
            exact (getB_update_batches b _ _).symm
        · rw [setBlockInstanceId_batches, setBlockInstanceId_batches]

theorem generateMeshes_congr {cm cm' : Chunk} (hsz : cm.size = cm'.size)
    (hget : ∀ q, getB cm q = getB cm' q) :
    ∀ q, getB (generateMeshes cm) q = getB (generateMeshes cm') q := by
  unfold generateMeshes
  have hszc : (clearBatches cm).size = (clearBatches cm').size := hsz
  rw [show scanList (clearBatches cm).size = scanList (clearBatches cm').size from
    congrArg scanList hszc]
  have hfold := foldl_rel
    (fun a b : Chunk => a.size = b.size ∧ (∀ q, getB a q = getB b q) ∧ a.batches = b.batches)
    meshStep
    (fun a b p hab => meshStep_congr hab.1 hab.2.1 hab.2.2 p)
    (scanList (clearBatches cm').size) (clearBatches cm) (clearBatches cm')
    ⟨hsz, fun q => hget q, rfl⟩
  exact hfold.2.1

theorem isBlockObscured_false_iff (c : Chunk) (x y z : Int) :
    isBlockObscured c x y z = false ↔
      ∃ q ∈ neighbors (x, y, z), blockIdOr (getB c q) = blocks.empty.id := by
  have hiff : isBlockObscured c x y z = false ↔
      (blockIdOr (getBlock c x (y + 1) z) = blocks.empty.id ∨
       blockIdOr (getBlock c x (y - 1) z) = blocks.empty.id ∨
       blockIdOr (getBlock c (x + 1) y z) = blocks.empty.id ∨
       blockIdOr (getBlock c (x - 1) y z) = blocks.empty.id ∨
       blockIdOr (getBlock c x y (z + 1)) = blocks.empty.id ∨
       blockIdOr (getBlock c x y (z - 1)) = blocks.empty.id) := by
    unfold isBlockObscured
    dsimp only
    split
    · next hc => exact iff_of_true rfl hc
    · next hc => exact iff_of_false (fun h => Bool.noConfusion h) hc
  rw [hiff]
  unfold neighbors getB
  simp only [List.mem_cons, List.not_mem_nil, or_false, exists_eq_or_imp, exists_eq_left]

/-! ### The claims -/

/-- C1: For every fixed seed, origin, chunk size, and terrain parameters,
two independent runs of `generate` on chunks backed by an empty Edit Store
produce bit-identical cells grids: the same cell at every coordinate. -/
theorem claim_C1_determinism (cfg : Config) (c c' : Chunk)
    (hstat : SameStatic c c') (hds : c.dataStore = emptyStore)
    (p : Int × Int × Int) :
    getB (generate cfg c) p = getB (generate cfg c') p := by
  rw [getB_generate, getB_generate]
  refine generateMeshes_congr ?_ ?_ p
  · have hS4 := (loadPlayerChanges_char c _ ((generateTerrain_char cfg c _
      ((generateResources_char cfg c _ (initializeTerrain_sameStatic c)).1)).1)).1
    have hS4' := (loadPlayerChanges_char c' _ ((generateTerrain_char cfg c' _
      ((generateResources_char cfg c' _ (initializeTerrain_sameStatic c')).1)).1)).1
    exact (hS4.1.trans hstat.1.symm).trans hS4'.1.symm
  · intro q
    rw [preMesh_char cfg c q, preMesh_char cfg c' q,
      show inBounds c' = inBounds c from inBounds_congr hstat.1,
      overlaidIdAt_congr cfg hstat q]

/-- Witness for C1 at a concrete input: two 3-wide 4-high chunks with the
same generation inputs but different junk grids, batches, and loaded flags
generate the same cell at a sample coordinate. -/
theorem claim_C1_determinism_witness :
    SameStatic chB chB' ∧ chB.dataStore = emptyStore ∧
    getB (generate cfg0 chB) (1, 0, 1) = getB (generate cfg0 chB') (1, 0, 1) :=
  ⟨⟨rfl, rfl, rfl, rfl, rfl, rfl⟩, rfl,
    claim_C1_determinism cfg0 chB chB' ⟨rfl, rfl, rfl, rfl, rfl, rfl⟩ rfl (1, 0, 1)⟩

/-- C2: After `generate` and after every subsequent sequence of `addBlock` /
`removeBlock` edits, for every non-empty block type the batch count equals
the number of cells of that type holding a render instance, and the assigned
instance slots form exactly the dense range `[0, count)`: every assigned slot
is below the count, every slot below the count is assigned, and no slot is
assigned to two cells. -/
theorem claim_C2_batch_count (cfg : Config) (c : Chunk) (ops : List EditOp)
    (i : Nat) (hi : i ≠ blocks.empty.id) :
    ((visCells (applyEdits (generate cfg c) ops) i).card =
      ((applyEdits (generate cfg c) ops).batches i).count) ∧
    (∀ p cell k, getB (applyEdits (generate cfg c) ops) p = some cell → cell.id = i →
      cell.instanceId = some k → k < ((applyEdits (generate cfg c) ops).batches i).count) ∧
    (∀ k, k < ((applyEdits (generate cfg c) ops).batches i).count →
      ∃ p cell, getB (applyEdits (generate cfg c) ops) p = some cell ∧ cell.id = i ∧
        cell.instanceId = some k) ∧
    (∀ p q cellp cellq k, getB (applyEdits (generate cfg c) ops) p = some cellp →
      getB (applyEdits (generate cfg c) ops) q = some cellq → cellp.id = i → cellq.id = i →
      cellp.instanceId = some k → cellq.instanceId = some k → p = q) := by
  have hInv := inv_state cfg c ops
  refine ⟨inv_card hInv hi, ?_, ?_, ?_⟩
  · intro p cell k hcell hcid hk
    have h := (hInv.slot p cell k hcell hk).1
    rwa [hcid] at h
  · intro k hk
    obtain ⟨cell, hcell, hcid, hinst⟩ := hInv.dense i k hi hk
    exact ⟨_, cell, hcell, hcid, hinst⟩
  · intro p q cellp cellq k hp hq hpid hqid hpk hqk
    have h1 := (hInv.slot p cellp k hp hpk).2
    have h2 := (hInv.slot q cellq k hq hqk).2
    rw [hpid] at h1
    rw [hqid] at h2
    rw [← h1, ← h2]

/-- Witness for C2 at a concrete input: after generating a 2-wide 2-high
chunk and removing one dirt block, the dirt batch count still equals the
number of dirt cells holding an instance. -/
theorem claim_C2_batch_count_witness :
    blocks.dirt.id ≠ blocks.empty.id ∧
    (visCells (applyEdits (generate cfg0 chA) [EditOp.remove 0 0 0]) blocks.dirt.id).card =
      ((applyEdits (generate cfg0 chA) [EditOp.remove 0 0 0]).batches blocks.dirt.id).count :=
  ⟨by decide,
    (claim_C2_batch_count cfg0 chA [EditOp.remove 0 0 0] blocks.dirt.id (by decide)).1⟩

/-- C3 counterexample: in a generated 3-wide 4-high chunk, the interior cell
`(1, 2, 1)` (all six neighbors in bounds) is empty and has no render
instance, yet its neighbor `(1, 3, 1)` is empty — so "instanceId = null iff
all six neighbors have non-empty blockId" fails for interior cells: the
claim omits that the cell itself must be non-empty. -/
theorem claim_C3_occlusion_cx :
    (∀ q ∈ neighbors (1, 2, 1), InB (generate cfg0 chB) q) ∧
    getB (generate cfg0 chB) (1, 2, 1) = some ⟨blocks.empty.id, none⟩ ∧
    ¬ (∀ q ∈ neighbors (1, 2, 1),
        blockIdOr (getB (generate cfg0 chB) q) ≠ blocks.empty.id) := by
  decide

/-- C3 (amended): after `generate`, a NON-empty cell has `instanceId = none`
iff every one of its six neighbors reads as non-empty (an out-of-bounds
neighbor reads as empty); and a cell with an out-of-bounds neighbor is never
classified as obscured.  Empty cells always have `instanceId = none`
regardless of their neighbors. -/
theorem claim_C3_occlusion_amended (cfg : Config) (c : Chunk) :
    (∀ p cell, getB (generate cfg c) p = some cell → cell.id ≠ blocks.empty.id →
      (cell.instanceId = none ↔
        ∀ q ∈ neighbors p, blockIdOr (getB (generate cfg c) q) ≠ blocks.empty.id)) ∧
    (∀ p : Int × Int × Int, (∃ q ∈ neighbors p, ¬ InB (generate cfg c) q) →
      isBlockObscured (generate cfg c) p.1 p.2.1 p.2.2 = false) := by
  obtain ⟨hInv, hvis⟩ := generate_inv_vis cfg c
  constructor
  · intro p cell hcell hne
    have h := hvis p cell hcell
    constructor
    · intro hnone
      by_contra hnall
      push_neg at hnall
      obtain ⟨q, hqmem, hqeq⟩ := hnall
      have hobsf : isBlockObscured (generate cfg c) p.1 p.2.1 p.2.2 = false :=
        (isBlockObscured_false_iff (generate cfg c) p.1 p.2.1 p.2.2).mpr ⟨q, hqmem, hqeq⟩
      have hs : cell.instanceId.isSome = true := h.mpr ⟨hne, hobsf⟩
      rw [hnone] at hs
      exact Bool.noConfusion hs
    · intro hall
      rcases hinst : cell.instanceId with _ | k
      · rfl
      · have hs : cell.instanceId.isSome = true := by rw [hinst]; rfl
        obtain ⟨-, hobsf⟩ := h.mp hs
        obtain ⟨q, hqmem, hqeq⟩ :=
          (isBlockObscured_false_iff (generate cfg c) p.1 p.2.1 p.2.2).mp hobsf
        exact absurd hqeq (hall q hqmem)
  · rintro p ⟨q, hqmem, hqoob⟩
    refine (isBlockObscured_false_iff (generate cfg c) p.1 p.2.1 p.2.2).mpr ⟨q, hqmem, ?_⟩
    have hq : getB (generate cfg c) q = none := by
      have hq' : ¬ (inBounds (generate cfg c) q.1 q.2.1 q.2.2 = true) := hqoob
      unfold getB getBlock
      rw [if_neg hq']
    rw [hq]
    rfl

/-- Witness for amended C3 at a concrete input: the interior dirt cell
`(1, 1, 1)` of a generated 3-wide 3-high chunk has no instance, and the
theorem yields that all six of its neighbors are non-empty. -/
theorem claim_C3_occlusion_amended_witness :
    getB (generate cfg0 chC) (1, 1, 1) = some ⟨blocks.dirt.id, none⟩ ∧
    (∀ q ∈ neighbors (1, 1, 1), blockIdOr (getB (generate cfg0 chC) q) ≠ blocks.empty.id) :=
  ⟨by decide, ((claim_C3_occlusion_amended cfg0 chC).1 (1, 1, 1) ⟨blocks.dirt.id, none⟩
    (by decide) (by decide)).mp rfl⟩

/-- C4: with an empty Edit Store, after `generate` every in-bounds
coordinate ends as: grass exactly at the computed clamped column height (even
over a stamped resource), the stamped resource id below the height where one
qualified, dirt below the height otherwise, and empty above the height (even
where a resource was stamped). -/
theorem claim_C4_terrain (cfg : Config) (c : Chunk) (hds : c.dataStore = emptyStore)
    (p : Int × Int × Int) (hb : inBounds c p.1 p.2.1 p.2.2 = true) :
    (p.2.1 = terrainHeight cfg c p.1 p.2.2 →
      (getB (generate cfg c) p).map Cell.id = some blocks.grass.id) ∧
    (p.2.1 < terrainHeight cfg c p.1 p.2.2 → resourceIdAt cfg c p ≠ blocks.empty.id →
      (getB (generate cfg c) p).map Cell.id = some (resourceIdAt cfg c p)) ∧
    (p.2.1 < terrainHeight cfg c p.1 p.2.2 → resourceIdAt cfg c p = blocks.empty.id →
      (getB (generate cfg c) p).map Cell.id = some blocks.dirt.id) ∧
    (terrainHeight cfg c p.1 p.2.2 < p.2.1 →
      (getB (generate cfg c) p).map Cell.id = some blocks.empty.id) := by
  have hid : (getB (generate cfg c) p).map Cell.id = some (overlaidIdAt cfg c p) := by
    rw [generate_ids cfg c p, if_pos hb]
  have hnc : ¬ (c.dataStore.contains c.posX c.posZ p.1 p.2.1 p.2.2 = true) := by
    rw [hds]
    exact fun h => Bool.noConfusion h
  have hov : overlaidIdAt cfg c p = generatedIdAt cfg c p := by
    unfold overlaidIdAt
    rw [if_neg hnc]
  rw [hid, hov]
  unfold generatedIdAt terrUpd
  refine ⟨?_, ?_, ?_, ?_⟩
  · intro hy
    rw [if_neg (fun hcon => absurd hcon.1 (by omega)), if_pos hy]
  · intro hy hrne
    rw [if_neg (fun hcon => hrne hcon.2), if_neg (by omega : ¬ p.2.1 = _),
      if_neg (by omega : ¬ _ < p.2.1)]
  · intro hy hre
    rw [if_pos ⟨hy, hre⟩]
  · intro hy
    rw [if_neg (fun hcon => absurd hcon.1 (by omega)), if_neg (by omega : ¬ p.2.1 = _),
      if_pos hy]

/-- Witness for C4 at a concrete input: in the 2-wide 2-high chunk with
offset 1/2 every column has height 1, and the cell at `(0, 1, 0)` is
grass. -/
theorem claim_C4_terrain_witness :
    chA.dataStore = emptyStore ∧ inBounds chA 0 1 0 = true ∧
    (1 : Int) = terrainHeight cfg0 chA 0 0 ∧
    (getB (generate cfg0 chA) (0, 1, 0)).map Cell.id = some blocks.grass.id :=
  ⟨rfl, by decide, by decide,
    (claim_C4_terrain cfg0 chA rfl (0, 1, 0) (by decide)).1 (by decide)⟩

/-- C5 counterexample: in a generated single-cell chunk the lone grass cell
holds slot 0 of a batch with count 1; removing it removes the instance at
slot `i = count - 1`.  The cell that claimed slot `count - 1` is the removed
cell itself and it ends with no instance, not with `instanceId = some i` as
the claim asserts for an arbitrary slot. -/
theorem claim_C5_swap_cx :
    getBlock (generate cfg0 chD) 0 0 0 = some ⟨blocks.grass.id, some 0⟩ ∧
    ((generate cfg0 chD).batches blocks.grass.id).count = 1 ∧
    ((generate cfg0 chD).batches blocks.grass.id).mats 0 = (0, 0, 0) ∧
    (getB (removeBlock (generate cfg0 chD) 0 0 0) (0, 0, 0)).map Cell.instanceId =
      some none := by
  decide

/-- C5 (amended): on a chunk satisfying the render invariant, removing a
visible cell holding slot `i` of its batch with count `n`: the count becomes
`n - 1` and the removed cell ends empty with no instance; when `i ≠ n - 1`
the transform formerly at slot `n - 1` is written into slot `i` and the cell
that claimed slot `n - 1` ends with `instanceId = some i`; when `i = n - 1`
the removed cell itself owned the last slot, which simply disappears.
Afterwards every cell holding an instance points to a slot whose stored
transform is that cell's own position. -/
theorem claim_C5_swap_amended {c : Chunk} {x y z : Int} {cf : Cell} {i : Nat}
    (hInv : Inv c) (hgb : getBlock c x y z = some cf)
    (hid : cf.id ≠ blocks.empty.id) (hci : cf.instanceId = some i) :
    ((removeBlock c x y z).batches cf.id).count = (c.batches cf.id).count - 1 ∧
    getBlock (removeBlock c x y z) x y z = some ⟨blocks.empty.id, none⟩ ∧
    (i ≠ (c.batches cf.id).count - 1 →
      ((removeBlock c x y z).batches cf.id).mats i =
        (c.batches cf.id).mats ((c.batches cf.id).count - 1) ∧
      getB (removeBlock c x y z) ((c.batches cf.id).mats ((c.batches cf.id).count - 1)) =
        some ⟨cf.id, some i⟩) ∧
    (∀ p cell k, getB (removeBlock c x y z) p = some cell → cell.instanceId = some k →
      ((removeBlock c x y z).batches cell.id).mats k = p) := by
  obtain ⟨hr1, hr2, hr3, hr4⟩ := removeBlock_effect hInv hgb hid
  obtain ⟨hb1, hb2, hb3, hb4⟩ := hr4 i hci
  refine ⟨?_, hr1, ?_, ?_⟩
  · rw [hb1]
  · intro hine
    obtain ⟨hLne, hLget, hoth⟩ := hb4 hine
    refine ⟨?_, hLget⟩
    rw [hb1]
    dsimp only
    rw [if_pos rfl]
  · intro p cell k hcell hk
    exact ((inv_removeBlock hInv x y z).slot p cell k hcell hk).2

/-- Witness for amended C5 at a concrete input: removing the dirt cell at
slot 0 of the 4-instance dirt batch of a generated 2-wide 2-high chunk drops
the count to 3 and hands slot 0 to the cell that held the last slot. -/
theorem claim_C5_swap_amended_witness :
    getBlock (generate cfg0 chA) 0 0 0 = some ⟨blocks.dirt.id, some 0⟩ ∧
    ((removeBlock (generate cfg0 chA) 0 0 0).batches blocks.dirt.id).count =
      ((generate cfg0 chA).batches blocks.dirt.id).count - 1 ∧
    getB (removeBlock (generate cfg0 chA) 0 0 0)
      (((generate cfg0 chA).batches blocks.dirt.id).mats
        (((generate cfg0 chA).batches blocks.dirt.id).count - 1)) =
      some ⟨blocks.dirt.id, some 0⟩ :=
  ⟨by decide,
    (claim_C5_swap_amended (generate_inv_vis cfg0 chA).1
      (by decide : getBlock (generate cfg0 chA) 0 0 0 = some ⟨blocks.dirt.id, some 0⟩)
      (by decide : (⟨blocks.dirt.id, some 0⟩ : Cell).id ≠ blocks.empty.id)
      (rfl : (⟨blocks.dirt.id, some 0⟩ : Cell).instanceId = some 0)).1,
    ((claim_C5_swap_amended (generate_inv_vis cfg0 chA).1
      (by decide : getBlock (generate cfg0 chA) 0 0 0 = some ⟨blocks.dirt.id, some 0⟩)
      (by decide : (⟨blocks.dirt.id, some 0⟩ : Cell).id ≠ blocks.empty.id)
      (rfl : (⟨blocks.dirt.id, some 0⟩ : Cell).instanceId = some 0)).2.2.1
      (by decide)).2⟩

/-- C6: for every in-bounds coordinate for which the Edit Store holds an
entry keyed by this chunk's origin, `generate` leaves the cell's block id
equal to the stored value, regardless of what resource placement and terrain
carving produced. -/
theorem claim_C6_overlay (cfg : Config) (c : Chunk) (p : Int × Int × Int)
    (hb : inBounds c p.1 p.2.1 p.2.2 = true)
    (hc : c.dataStore.contains c.posX c.posZ p.1 p.2.1 p.2.2 = true) :
    (getB (generate cfg c) p).map Cell.id =
      some (c.dataStore.get c.posX c.posZ p.1 p.2.1 p.2.2) := by
  rw [generate_ids cfg c p, if_pos hb]
  unfold overlaidIdAt
  rw [if_pos hc]

/-- Witness for C6 at a concrete input: a 3-wide 4-high chunk whose store
holds a stone edit at `(1, 2, 1)` — a coordinate the baseline generation
leaves empty — generates stone there. -/
theorem claim_C6_overlay_witness :
    inBounds chG 1 2 1 = true ∧
    chG.dataStore.contains chG.posX chG.posZ 1 2 1 = true ∧
    (getB (generate cfg0 chG) (1, 2, 1)).map Cell.id =
      some (chG.dataStore.get chG.posX chG.posZ 1 2 1) :=
  ⟨by decide, by decide, claim_C6_overlay cfg0 chG (1, 2, 1) (by decide) (by decide)⟩

/-- C7 counterexample: adding a block with the reserved empty id at an empty
in-bounds cell of a generated chunk does NOT create a render instance: the
cell keeps `instanceId = none` and the batch count stays 0, contradicting
the claim's "every block id newId ... unconditionally creates a render
instance". -/
theorem claim_C7_addBlock_cx :
    getBlock (generate cfg0 chB) 1 2 1 = some ⟨blocks.empty.id, none⟩ ∧
    (getBlock (addBlock (generate cfg0 chB) 1 2 1 blocks.empty.id) 1 2 1).map
      Cell.instanceId = some none ∧
    ((addBlock (generate cfg0 chB) 1 2 1 blocks.empty.id).batches blocks.empty.id).count
      = 0 := by
  decide

/-- C7 (amended): on a chunk satisfying the render invariant, for every
in-bounds coordinate whose cell is currently empty and every NON-empty block
id, `addBlock` sets the cell's id, appends a render instance at the end of
that id's batch (slot = previous count, count incremented, transform = the
cell's position), writes the id into the Edit Store keyed by the chunk's
origin, and changes no other cell. -/
theorem claim_C7_addBlock_amended {c : Chunk} {x y z : Int} {cf : Cell} (hInv : Inv c)
    (hgb : getBlock c x y z = some cf) (hid : cf.id = blocks.empty.id)
    {bid : Nat} (hbid : bid ≠ blocks.empty.id) :
    getBlock (addBlock c x y z bid) x y z = some ⟨bid, some (c.batches bid).count⟩ ∧
    (addBlock c x y z bid).batches bid =
      ⟨(c.batches bid).count + 1,
        fun k => if k = (c.batches bid).count then (x, y, z) else (c.batches bid).mats k⟩ ∧
    (∀ j, j ≠ bid → (addBlock c x y z bid).batches j = c.batches j) ∧
    (addBlock c x y z bid).dataStore = c.dataStore.set c.posX c.posZ x y z bid ∧
    (∀ q : Int × Int × Int, q ≠ (x, y, z) → getB (addBlock c x y z bid) q = getB c q) := by
  obtain ⟨h1, h2, h3, h4, h5, _⟩ := addBlock_effect hInv hgb hid hbid
  exact ⟨h1, h3, h4, h5, h2⟩

/-- Witness for amended C7 at a concrete input: adding stone at the empty
cell `(1, 2, 1)` of a generated 3-wide 4-high chunk gives that cell a fresh
instance at the end of the stone batch. -/
theorem claim_C7_addBlock_amended_witness :
    getBlock (generate cfg0 chB) 1 2 1 = some ⟨blocks.empty.id, none⟩ ∧
    blocks.stone.id ≠ blocks.empty.id ∧
    getBlock (addBlock (generate cfg0 chB) 1 2 1 blocks.stone.id) 1 2 1 =
      some ⟨blocks.stone.id, some (((generate cfg0 chB)).batches blocks.stone.id).count⟩ :=
  ⟨by decide, by decide,
    (claim_C7_addBlock_amended (generate_inv_vis cfg0 chB).1
      (by decide : getBlock (generate cfg0 chB) 1 2 1 = some ⟨blocks.empty.id, none⟩)
      (rfl : (⟨blocks.empty.id, none⟩ : Cell).id = blocks.empty.id)
      (by decide : blocks.stone.id ≠ blocks.empty.id)).1⟩

/-- C8: `addBlock` on an occupied cell, `removeBlock` on an empty cell, and
either operation at an out-of-bounds coordinate, are complete no-ops: the
chunk is returned unchanged — no cell, no batch, and no Edit Store write. -/
theorem claim_C8_noop (c : Chunk) (x y z : Int) (bid : Nat) :
    (∀ cf, getBlock c x y z = some cf → cf.id ≠ blocks.empty.id →
      addBlock c x y z bid = c) ∧
    (∀ cf, getBlock c x y z = some cf → cf.id = blocks.empty.id →
      removeBlock c x y z = c) ∧
    (getBlock c x y z = none → addBlock c x y z bid = c ∧ removeBlock c x y z = c) := by
  refine ⟨?_, ?_, ?_⟩
  · intro cf hgb hid
    exact addBlock_noop_occupied hgb hid bid
  · intro cf hgb hid
    exact removeBlock_noop_empty hgb hid
  · intro hgb
    exact ⟨addBlock_noop_oob hgb bid, removeBlock_noop_oob hgb⟩

/-- Witness for C8 at concrete inputs: adding stone over the occupied dirt
cell `(0, 0, 0)` of a generated 2-wide 2-high chunk returns the chunk
unchanged, as does removing at the out-of-bounds coordinate `(5, 0, 0)`. -/
theorem claim_C8_noop_witness :
    getBlock (generate cfg0 chA) 0 0 0 = some ⟨blocks.dirt.id, some 0⟩ ∧
    (⟨blocks.dirt.id, some 0⟩ : Cell).id ≠ blocks.empty.id ∧
    addBlock (generate cfg0 chA) 0 0 0 blocks.stone.id = generate cfg0 chA ∧
    getBlock (generate cfg0 chA) 5 0 0 = none ∧
    removeBlock (generate cfg0 chA) 5 0 0 = generate cfg0 chA :=
  ⟨by decide, by decide,
    (claim_C8_noop (generate cfg0 chA) 0 0 0 blocks.stone.id).1 ⟨blocks.dirt.id, some 0⟩
      (by decide) (by decide),
    by decide,
    ((claim_C8_noop (generate cfg0 chA) 5 0 0 blocks.stone.id).2.2 (by decide)).2⟩

set_option maxHeartbeats 1000000 in
/-- C9: every read of the grid at an out-of-range coordinate returns absent,
every write there is silently discarded, and no reachable state — after
`generate` and any sequence of edits — stores a cell out of range; in
particular the terrain fill loop, which iterates `y` up to and including the
chunk height, never leaves a cell at `y = height`. -/
theorem claim_C9_bounds (cfg : Config) (c c₀ : Chunk) (ops : List EditOp)
    (x y z : Int) (i : Nat) (v : Option Nat) :
    (inBounds c₀ x y z = false →
      getBlock c₀ x y z = none ∧ setBlockId c₀ x y z i = c₀ ∧
        setBlockInstanceId c₀ x y z v = c₀) ∧
    NoStray (applyEdits (generate cfg c) ops) ∧
    (generate cfg c).data x (c.size.height : Int) z = none := by
  refine ⟨?_, noStray_applyEdits (noStray_generate cfg c) ops, ?_⟩
  · intro hob
    have hob' : ¬ (inBounds c₀ x y z = true) := by
      rw [hob]
      exact fun h => Bool.noConfusion h
    refine ⟨?_, ?_, ?_⟩
    · unfold getBlock
      rw [if_neg hob']
    · unfold setBlockId
      rw [if_neg hob']
    · unfold setBlockInstanceId
      rw [if_neg hob']
  · have hsz : (generate cfg c).size = c.size := (generate_sameStatic cfg c).1
    refine noStray_generate cfg c (x, (c.size.height : Int), z) ?_
    intro hin
    have hb := inBounds_iff.mp hin
    rw [hsz] at hb
    have h2 : ((c.size.height : Int)) < (c.size.height : Int) := hb.2.2.2.1
    exact absurd h2 (lt_irrefl _)

/-- Witness for C9 at concrete inputs: reads and writes at the out-of-bounds
coordinate `(5, 0, 0)` of a 2-wide 2-high chunk are absent or discarded, and
the generated chunk stores nothing at the over-the-top row `y = 2`. -/
theorem claim_C9_bounds_witness :
    inBounds chA 5 0 0 = false ∧
    (getBlock chA 5 0 0 = none ∧ setBlockId chA 5 0 0 1 = chA ∧
      setBlockInstanceId chA 5 0 0 none = chA) ∧
    (generate cfg0 chA).data 0 (2 : Int) 0 = none :=
  ⟨by decide, (claim_C9_bounds cfg0 chA chA [] 5 0 0 1 none).1 (by decide),
    (claim_C9_bounds cfg0 chA chA [] 0 0 0 1 none).2.2⟩

/-- C10: adding a block with the reserved empty id at an in-bounds cell that
is currently empty changes no cell and no batch — no render instance is
created, because instance creation requires a non-empty id — yet still
writes an entry with the empty id into the Edit Store for that coordinate. -/
theorem claim_C10_empty_add {c : Chunk} {x y z : Int} {cf : Cell}
    (hgb : getBlock c x y z = some cf) (hid : cf.id = blocks.empty.id) :
    (∀ q, getB (addBlock c x y z blocks.empty.id) q = getB c q) ∧
    (addBlock c x y z blocks.empty.id).batches = c.batches ∧
    (addBlock c x y z blocks.empty.id).dataStore =
      c.dataStore.set c.posX c.posZ x y z blocks.empty.id :=
  addBlock_emptyId_effect hgb hid

/-- Witness for C10 at a concrete input: adding the empty id at the empty
cell `(1, 2, 1)` of a generated 3-wide 4-high chunk leaves all batches
unchanged and records the empty id in the Edit Store. -/
theorem claim_C10_empty_add_witness :
    getBlock (generate cfg0 chB) 1 2 1 = some ⟨blocks.empty.id, none⟩ ∧
    (addBlock (generate cfg0 chB) 1 2 1 blocks.empty.id).batches =
      (generate cfg0 chB).batches ∧
    (addBlock (generate cfg0 chB) 1 2 1 blocks.empty.id).dataStore =
      (generate cfg0 chB).dataStore.set (generate cfg0 chB).posX (generate cfg0 chB).posZ
        1 2 1 blocks.empty.id :=
  ⟨by decide,
    (claim_C10_empty_add
      (by decide : getBlock (generate cfg0 chB) 1 2 1 = some ⟨blocks.empty.id, none⟩)
      (rfl : (⟨blocks.empty.id, none⟩ : Cell).id = blocks.empty.id)).2.1,
    (claim_C10_empty_add
      (by decide : getBlock (generate cfg0 chB) 1 2 1 = some ⟨blocks.empty.id, none⟩)
      (rfl : (⟨blocks.empty.id, none⟩ : Cell).id = blocks.empty.id)).2.2⟩

end MC
